import Mathlib

set_option maxRecDepth 8000

/-!
Shallow embedding of the `rateflow` rate-limiting library
(package `limiter`: `reservation.go`, `fixed_window.go`, and the
leaky-bucket / type files) and proofs about its four algorithm
engines: token bucket, leaky bucket, sliding window, fixed window.

Modelling conventions:
* `time.Time` and `time.Duration` are nanosecond counts, modelled as `Int`
  (Go's int64 arithmetic never overflows in the regimes the claims cover).
* `float64` quantities (`Limit`, token counts, `Seconds()` values) are
  modelled as exact rationals `ℚ`; Go's `float64 → int` and
  `float64 → time.Duration` conversions truncate toward zero, modelled
  by `goTrunc`.
* `math.MaxFloat64` (the `Inf` rate sentinel, compared by equality in the
  source) is the exact rational value of that float.
* Go run-time panics (slice bound violations) are modelled by `Option`:
  `none` is a panic.
* Locking is dropped: each operation is the atomic state transformer that
  the source performs under the engine's mutex.
-/

namespace Rateflow

/-- Go `time.Second` in nanoseconds. -/
def nsPerSecond : Int := 1000000000

/-- Go `Duration.Seconds()`: the duration as a (here: exact) number of seconds. -/
def secondsOf (d : Int) : ℚ := (d : ℚ) / (nsPerSecond : ℚ)

/-- The exact rational value of Go `math.MaxFloat64` (that is,
`(2^53 - 1) * 2^971`), the `Inf` rate sentinel, written as an explicit
numeral. -/
def maxFloat64 : ℚ :=
  ⟨179769313486231570814527423731704356798070567525844996598917476803157260780028538760589558632766878171540458953514382464234321326889464182768467546703537516986049910576551282076245490090389328944075868508455133942304583236903222948165808559332123348274797826204144723168738177180919299881250404026184124858368,
   1, Nat.one_ne_zero, Nat.coprime_one_right _⟩

/-- Go's `int(f)` / `time.Duration(f)` conversion from `float64`:
truncation toward zero (the rational is a reduced fraction with a positive
denominator, so `tdiv` of numerator by denominator is exactly that). -/
def goTrunc (q : ℚ) : Int := q.num.tdiv (q.den : Int)

/-- Go `t.Truncate(d)`: round `t` down to a multiple of `d`
(returns `t` unchanged for `d ≤ 0`). -/
def goTruncate (t : Int) (d : Int) : Int := if d ≤ 0 then t else t - t % d

/-- The window-duration computation shared by `NewSlidingWindow`,
`NewFixedWindow`, `SetLimitAt` and `SetBurstAt` of the two window engines:
`window := time.Second; if r > 0 { window = Duration(float64(Second)*float64(count)/float64(r)) }`. -/
def windowFor (r : ℚ) (count : Int) : Int :=
  if 0 < r then goTrunc ((nsPerSecond : ℚ) * (count : ℚ) / r) else nsPerSecond

/-- `Reservation` from `reservation.go`. The Go zero value
`&Reservation{ok: false}` has all other fields zero. The back-reference
`lim` is only used to route a best-effort `CancelAt` that performs no state
restoration, so it is not modelled. -/
structure Reservation where
  ok : Bool
  tokens : Int
  timeToAct : Int
  limit : ℚ
deriving DecidableEq, Repr

/-- `&Reservation{ok: false}` with Go zero values for the other fields. -/
def Reservation.notOk : Reservation := ⟨false, 0, 0, 0⟩

/-- `Reservation.DelayFrom`: `-1` for a non-ok reservation, otherwise
`max 0 (timeToAct - t)`. -/
def Reservation.DelayFrom (r : Reservation) (t : Int) : Int :=
  if !r.ok then -1
  else
    let delay := r.timeToAct - t
    if delay < 0 then 0 else delay

/-- The synchronously decided part of a `WaitN` call: either an immediate
error, an immediate success, or the suspension the caller would enter
(with the computed sleep duration). -/
inductive WaitOutcome
  | err
  | done
  | sleep (delay : Int)
deriving DecidableEq, Repr

/-! ## Token bucket (`TokenBucketLimiter`) -/

/-- `TokenBucketLimiter` state. -/
structure TokenBucketLimiter where
  limit : ℚ
  burst : Int
  tokens : ℚ
  lastUpdated : Int
deriving DecidableEq, Repr

/-- `NewTokenBucket(r, b)` with construction instant `t0` (`time.Now()`). -/
def NewTokenBucket (r : ℚ) (b : Int) (t0 : Int) : TokenBucketLimiter :=
  ⟨r, b, (b : ℚ), t0⟩

/-- `TokenBucketLimiter.advance`: replenish tokens for the elapsed time,
saturating at `burst`; an unlimited rate resets the count to `burst`. -/
def TokenBucketLimiter.advance (tb : TokenBucketLimiter) (now : Int) :
    TokenBucketLimiter :=
  let elapsed : Int := now - tb.lastUpdated
  if tb.limit = maxFloat64 then
    { tb with lastUpdated := now, tokens := (tb.burst : ℚ) }
  else
    { tb with
      lastUpdated := now
      tokens := min (tb.tokens + tb.limit * secondsOf elapsed) (tb.burst : ℚ) }

/-- `TokenBucketLimiter.AllowN`. -/
def TokenBucketLimiter.AllowN (tb : TokenBucketLimiter) (t : Int) (n : Int) :
    Bool × TokenBucketLimiter :=
  let tb1 := tb.advance t
  if (n : ℚ) ≤ tb1.tokens then (true, { tb1 with tokens := tb1.tokens - (n : ℚ) })
  else (false, tb1)

/-- `TokenBucketLimiter.ReserveN`. -/
def TokenBucketLimiter.ReserveN (tb : TokenBucketLimiter) (t : Int) (n : Int) :
    Reservation × TokenBucketLimiter :=
  let tb1 := tb.advance t
  if tb1.burst < n then (Reservation.notOk, tb1)
  else
    let waitDuration : Int :=
      if tb1.tokens < (n : ℚ) then
        if 0 < tb1.limit then
          goTrunc (((n : ℚ) - tb1.tokens) / tb1.limit * (nsPerSecond : ℚ)) + 1
        else 0
      else 0
    (⟨true, n, t + waitDuration, tb1.limit⟩,
     { tb1 with tokens := tb1.tokens - (n : ℚ) })

/-- `TokenBucketLimiter.TokensAt`: returns the advanced token count and the
mutated state. -/
def TokenBucketLimiter.TokensAt (tb : TokenBucketLimiter) (t : Int) :
    ℚ × TokenBucketLimiter :=
  let tb1 := tb.advance t
  (tb1.tokens, tb1)

/-- `TokenBucketLimiter.SetLimitAt`. -/
def TokenBucketLimiter.SetLimitAt (tb : TokenBucketLimiter) (t : Int) (r : ℚ) :
    TokenBucketLimiter :=
  let tb1 := tb.advance t
  { tb1 with limit := r }

/-- `TokenBucketLimiter.SetBurstAt`: clamps the token count down to the new
burst. -/
def TokenBucketLimiter.SetBurstAt (tb : TokenBucketLimiter) (t : Int) (b : Int) :
    TokenBucketLimiter :=
  let tb1 := tb.advance t
  let tb2 := { tb1 with burst := b }
  if (b : ℚ) < tb2.tokens then { tb2 with tokens := (b : ℚ) } else tb2

/-- `TokenBucketLimiter.WaitN` up to its first suspension point: reserve,
fail synchronously on a non-ok reservation, return immediately on zero
delay, otherwise suspend for the computed delay. -/
def TokenBucketLimiter.WaitNSync (tb : TokenBucketLimiter) (now : Int) (n : Int) :
    WaitOutcome × TokenBucketLimiter :=
  let p := tb.ReserveN now n
  if !p.1.ok then (.err, p.2)
  else
    let delay := p.1.DelayFrom now
    if delay = 0 then (.done, p.2) else (.sleep delay, p.2)

/-! ## Leaky bucket (`LeakyBucketLimiter`) -/

/-- `LeakyBucketLimiter` state. -/
structure LeakyBucketLimiter where
  limit : ℚ
  capacity : Int
  queue : List Int
  lastLeakTime : Int
deriving DecidableEq, Repr

/-- `NewLeakyBucket(r, capacity)` with construction instant `t0`. -/
def NewLeakyBucket (r : ℚ) (c : Int) (t0 : Int) : LeakyBucketLimiter :=
  ⟨r, c, [], t0⟩

/-- The `leakCount` computed inside `LeakyBucketLimiter.leak`:
`int(rate × elapsed-seconds)`, clamped above by the queue length (the
source's `if leakCount > len(lb.queue)` clamp). -/
def LeakyBucketLimiter.leakCount (lb : LeakyBucketLimiter) (now : Int) : Int :=
  if (lb.queue.length : Int) < goTrunc (lb.limit * secondsOf (now - lb.lastLeakTime)) then
    (lb.queue.length : Int)
  else goTrunc (lb.limit * secondsOf (now - lb.lastLeakTime))

/-- `LeakyBucketLimiter.leak`: drop `leakCount` entries from the front of
the queue. An unlimited rate or an empty queue returns early without
touching `lastLeakTime`. A negative count reaches Go's
`lb.queue[leakCount:]` and panics (`none`). -/
def LeakyBucketLimiter.leak (lb : LeakyBucketLimiter) (now : Int) :
    Option LeakyBucketLimiter :=
  if lb.limit = maxFloat64 ∨ lb.queue.length = 0 then some lb
  else if lb.leakCount now < 0 then none
  else some { lb with lastLeakTime := now, queue := lb.queue.drop (lb.leakCount now).toNat }

/-- `LeakyBucketLimiter.AllowN`. -/
def LeakyBucketLimiter.AllowN (lb : LeakyBucketLimiter) (t : Int) (n : Int) :
    Option (Bool × LeakyBucketLimiter) :=
  (lb.leak t).map fun lb1 =>
    if (lb1.queue.length : Int) + n ≤ lb1.capacity then
      (true, { lb1 with queue := lb1.queue ++ List.replicate n.toNat t })
    else (false, lb1)

/-- `LeakyBucketLimiter.ReserveN`. -/
def LeakyBucketLimiter.ReserveN (lb : LeakyBucketLimiter) (t : Int) (n : Int) :
    Option (Reservation × LeakyBucketLimiter) :=
  (lb.leak t).map fun lb1 =>
    if lb1.capacity < n then (Reservation.notOk, lb1)
    else
      let waitDuration : Int :=
        if lb1.capacity < (lb1.queue.length : Int) + n then
          if 0 < lb1.limit then
            goTrunc ((((lb1.queue.length : Int) + n - lb1.capacity : Int) : ℚ) /
              lb1.limit * (nsPerSecond : ℚ)) + 1
          else 0
        else 0
      (⟨true, n, t + waitDuration, lb1.limit⟩,
       { lb1 with queue := lb1.queue ++ List.replicate n.toNat t })

/-- `LeakyBucketLimiter.TokensAt`: remaining slots, `capacity - len(queue)`. -/
def LeakyBucketLimiter.TokensAt (lb : LeakyBucketLimiter) (t : Int) :
    Option (ℚ × LeakyBucketLimiter) :=
  (lb.leak t).map fun lb1 =>
    (((lb1.capacity - (lb1.queue.length : Int) : Int) : ℚ), lb1)

/-- `LeakyBucketLimiter.SetLimitAt`. -/
def LeakyBucketLimiter.SetLimitAt (lb : LeakyBucketLimiter) (t : Int) (r : ℚ) :
    Option LeakyBucketLimiter :=
  (lb.leak t).map fun lb1 => { lb1 with limit := r }

/-- `LeakyBucketLimiter.SetBurstAt`: truncates the queue to the new capacity
when it is longer. Go's `lb.queue[:newBurst]` panics for a negative
`newBurst` (`none`). -/
def LeakyBucketLimiter.SetBurstAt (lb : LeakyBucketLimiter) (t : Int) (b : Int) :
    Option LeakyBucketLimiter :=
  (lb.leak t).bind fun lb1 =>
    let lb2 := { lb1 with capacity := b }
    if b < (lb2.queue.length : Int) then
      if b < 0 then none
      else some { lb2 with queue := lb2.queue.take b.toNat }
    else some lb2

/-- `LeakyBucketLimiter.WaitN` up to its first suspension point. -/
def LeakyBucketLimiter.WaitNSync (lb : LeakyBucketLimiter) (now : Int) (n : Int) :
    Option (WaitOutcome × LeakyBucketLimiter) :=
  (lb.ReserveN now n).map fun p =>
    if !p.1.ok then (.err, p.2)
    else
      let delay := p.1.DelayFrom now
      if delay = 0 then (.done, p.2) else (.sleep delay, p.2)

/-! ## Sliding window (`SlidingWindowLimiter`) -/

/-- `SlidingWindowLimiter` state. -/
structure SlidingWindowLimiter where
  limit : ℚ
  maxCount : Int
  window : Int
  timestamps : List Int
deriving DecidableEq, Repr

/-- `NewSlidingWindow(r, maxCount)`. -/
def NewSlidingWindow (r : ℚ) (m : Int) : SlidingWindowLimiter :=
  ⟨r, m, windowFor r m, []⟩

/-- `SlidingWindowLimiter.cleanup`: drop the longest prefix of timestamps
strictly before `now - window`. -/
def SlidingWindowLimiter.cleanup (sw : SlidingWindowLimiter) (now : Int) :
    SlidingWindowLimiter :=
  { sw with timestamps := sw.timestamps.dropWhile fun x => decide (x < now - sw.window) }

/-- `SlidingWindowLimiter.AllowN`. -/
def SlidingWindowLimiter.AllowN (sw : SlidingWindowLimiter) (t : Int) (n : Int) :
    Bool × SlidingWindowLimiter :=
  let sw1 := sw.cleanup t
  if (sw1.timestamps.length : Int) + n ≤ sw1.maxCount then
    (true, { sw1 with timestamps := sw1.timestamps ++ List.replicate n.toNat t })
  else (false, sw1)

/-- `SlidingWindowLimiter.ReserveN`: delegates to `AllowN`; an admitted
request yields an immediate (`timeToAct = t`) reservation, a denied one the
non-ok reservation. -/
def SlidingWindowLimiter.ReserveN (sw : SlidingWindowLimiter) (t : Int) (n : Int) :
    Reservation × SlidingWindowLimiter :=
  let p := sw.AllowN t n
  if p.1 then (⟨true, n, t, p.2.limit⟩, p.2) else (Reservation.notOk, p.2)

/-- `SlidingWindowLimiter.TokensAt`: `maxCount - len(timestamps)`. -/
def SlidingWindowLimiter.TokensAt (sw : SlidingWindowLimiter) (t : Int) :
    ℚ × SlidingWindowLimiter :=
  let sw1 := sw.cleanup t
  (((sw1.maxCount - (sw1.timestamps.length : Int) : Int) : ℚ), sw1)

/-- `SlidingWindowLimiter.SetLimitAt`. -/
def SlidingWindowLimiter.SetLimitAt (sw : SlidingWindowLimiter) (t : Int) (r : ℚ) :
    SlidingWindowLimiter :=
  let sw1 := sw.cleanup t
  let sw2 := { sw1 with limit := r }
  if 0 < r then
    { sw2 with window := goTrunc ((nsPerSecond : ℚ) * (sw2.maxCount : ℚ) / r) }
  else sw2

/-- `SlidingWindowLimiter.SetBurstAt`: note that the recorded timestamps are
not trimmed when the burst shrinks. -/
def SlidingWindowLimiter.SetBurstAt (sw : SlidingWindowLimiter) (t : Int) (b : Int) :
    SlidingWindowLimiter :=
  let sw1 := sw.cleanup t
  let sw2 := { sw1 with maxCount := b }
  if 0 < sw2.limit then
    { sw2 with window := goTrunc ((nsPerSecond : ℚ) * (b : ℚ) / sw2.limit) }
  else sw2

/-- `SlidingWindowLimiter.WaitN` up to its first suspension point
(`oldestToKeep.Add(window).Add(time.Millisecond)` is the wake-up instant). -/
def SlidingWindowLimiter.WaitNSync (sw : SlidingWindowLimiter) (now : Int) (n : Int) :
    WaitOutcome × SlidingWindowLimiter :=
  let sw1 := sw.cleanup now
  if sw1.maxCount < n then (.err, sw1)
  else if sw1.maxCount < (sw1.timestamps.length : Int) + n then
    let needToExpire0 : Int := (sw1.timestamps.length : Int) + n - sw1.maxCount
    let needToExpire : Int :=
      if (sw1.timestamps.length : Int) < needToExpire0 then (sw1.timestamps.length : Int)
      else needToExpire0
    let oldestToKeep : Int := sw1.timestamps.getD (needToExpire - 1).toNat 0
    (.sleep (oldestToKeep + sw1.window + 1000000 - now), sw1)
  else (.done, { sw1 with timestamps := sw1.timestamps ++ List.replicate n.toNat now })

/-! ## Fixed window (`FixedWindowLimiter`) -/

/-- `FixedWindowLimiter` state. -/
structure FixedWindowLimiter where
  limit : ℚ
  maxCount : Int
  window : Int
  currentCount : Int
  windowStart : Int
deriving DecidableEq, Repr

/-- `NewFixedWindow(r, maxCount)` with construction instant `t0`
(the initial `windowStart` is `time.Now()`, not truncated). -/
def NewFixedWindow (r : ℚ) (m : Int) (t0 : Int) : FixedWindowLimiter :=
  ⟨r, m, windowFor r m, 0, t0⟩

/-- `FixedWindowLimiter.resetIfNeeded`: on rollover, zero the counter and
re-align `windowStart` to `now.Truncate(window)`. -/
def FixedWindowLimiter.resetIfNeeded (fw : FixedWindowLimiter) (now : Int) :
    FixedWindowLimiter :=
  if fw.window ≤ now - fw.windowStart then
    { fw with currentCount := 0, windowStart := goTruncate now fw.window }
  else fw

/-- `FixedWindowLimiter.AllowN`. -/
def FixedWindowLimiter.AllowN (fw : FixedWindowLimiter) (t : Int) (n : Int) :
    Bool × FixedWindowLimiter :=
  let fw1 := fw.resetIfNeeded t
  if fw1.currentCount + n ≤ fw1.maxCount then
    (true, { fw1 with currentCount := fw1.currentCount + n })
  else (false, fw1)

/-- `FixedWindowLimiter.ReserveN`: delegates to `AllowN` exactly as the
sliding window does. -/
def FixedWindowLimiter.ReserveN (fw : FixedWindowLimiter) (t : Int) (n : Int) :
    Reservation × FixedWindowLimiter :=
  let p := fw.AllowN t n
  if p.1 then (⟨true, n, t, p.2.limit⟩, p.2) else (Reservation.notOk, p.2)

/-- `FixedWindowLimiter.TokensAt`: `maxCount - currentCount`. -/
def FixedWindowLimiter.TokensAt (fw : FixedWindowLimiter) (t : Int) :
    ℚ × FixedWindowLimiter :=
  let fw1 := fw.resetIfNeeded t
  (((fw1.maxCount - fw1.currentCount : Int) : ℚ), fw1)

/-- `FixedWindowLimiter.SetLimitAt`. -/
def FixedWindowLimiter.SetLimitAt (fw : FixedWindowLimiter) (t : Int) (r : ℚ) :
    FixedWindowLimiter :=
  let fw1 := fw.resetIfNeeded t
  let fw2 := { fw1 with limit := r }
  if 0 < r then
    { fw2 with window := goTrunc ((nsPerSecond : ℚ) * (fw2.maxCount : ℚ) / r) }
  else fw2

/-- `FixedWindowLimiter.SetBurstAt`: note that `currentCount` is not
clamped when the burst shrinks. -/
def FixedWindowLimiter.SetBurstAt (fw : FixedWindowLimiter) (t : Int) (b : Int) :
    FixedWindowLimiter :=
  let fw1 := fw.resetIfNeeded t
  let fw2 := { fw1 with maxCount := b }
  if 0 < fw2.limit then
    { fw2 with window := goTrunc ((nsPerSecond : ℚ) * (b : ℚ) / fw2.limit) }
  else fw2

/-- `FixedWindowLimiter.WaitN` up to its first suspension point
(the wake-up instant is the next window boundary). -/
def FixedWindowLimiter.WaitNSync (fw : FixedWindowLimiter) (now : Int) (n : Int) :
    WaitOutcome × FixedWindowLimiter :=
  let fw1 := fw.resetIfNeeded now
  if fw1.maxCount < n then (.err, fw1)
  else if fw1.maxCount < fw1.currentCount + n then
    (.sleep (fw1.windowStart + fw1.window - now), fw1)
  else (.done, { fw1 with currentCount := fw1.currentCount + n })

/-! ## Call sequences

Machinery for stating trace properties: repeated `Allow()` calls and
sequences of contract operations. -/

/-- `k` consecutive `AllowN(t, 1)` calls on a token bucket, collecting the
returned booleans. -/
def TokenBucketLimiter.runAllows (tb : TokenBucketLimiter) (t : Int) :
    ℕ → List Bool
  | 0 => []
  | k + 1 =>
    let p := tb.AllowN t 1
    p.1 :: p.2.runAllows t k

/-- `k` consecutive `AllowN(t, 1)` calls on a leaky bucket (`none` if any
call panics). -/
def LeakyBucketLimiter.runAllows (lb : LeakyBucketLimiter) (t : Int) :
    ℕ → Option (List Bool)
  | 0 => some []
  | k + 1 =>
    (lb.AllowN t 1).bind fun p => (p.2.runAllows t k).map fun rest => p.1 :: rest

/-- `k` consecutive `AllowN(t, 1)` calls on a sliding window. -/
def SlidingWindowLimiter.runAllows (sw : SlidingWindowLimiter) (t : Int) :
    ℕ → List Bool
  | 0 => []
  | k + 1 =>
    let p := sw.AllowN t 1
    p.1 :: p.2.runAllows t k

/-- `k` consecutive `AllowN(t, 1)` calls on a fixed window. -/
def FixedWindowLimiter.runAllows (fw : FixedWindowLimiter) (t : Int) :
    ℕ → List Bool
  | 0 => []
  | k + 1 =>
    let p := fw.AllowN t 1
    p.1 :: p.2.runAllows t k

/-- An admission-side operation (no reconfiguration): the operations a
caller may issue on a limiter that is never reconfigured. -/
inductive AdmOp
  | allowN (t : Int) (n : ℕ)
  | reserveN (t : Int) (n : ℕ)
  | tokensAt (t : Int)
deriving DecidableEq, Repr

/-- Apply one admission operation to a token bucket, accumulating the
number of units admitted by `allowN`. -/
def TokenBucketLimiter.applyAdm (p : TokenBucketLimiter × ℕ) (op : AdmOp) :
    TokenBucketLimiter × ℕ :=
  match op with
  | .allowN t n =>
    let q := p.1.AllowN t (n : Int)
    (q.2, if q.1 then p.2 + n else p.2)
  | .reserveN t n => ((p.1.ReserveN t (n : Int)).2, p.2)
  | .tokensAt t => ((p.1.TokensAt t).2, p.2)

/-- Run a sequence of admission operations on a token bucket, returning the
final state and the cumulative units admitted by `allowN`. -/
def TokenBucketLimiter.runAdm (tb : TokenBucketLimiter) (ops : List AdmOp) :
    TokenBucketLimiter × ℕ :=
  ops.foldl TokenBucketLimiter.applyAdm (tb, 0)

/-- Apply one admission operation to a leaky bucket (`none` on panic). -/
def LeakyBucketLimiter.applyAdm (p : LeakyBucketLimiter × ℕ) (op : AdmOp) :
    Option (LeakyBucketLimiter × ℕ) :=
  match op with
  | .allowN t n =>
    (p.1.AllowN t (n : Int)).map fun q => (q.2, if q.1 then p.2 + n else p.2)
  | .reserveN t n => (p.1.ReserveN t (n : Int)).map fun q => (q.2, p.2)
  | .tokensAt t => (p.1.TokensAt t).map fun q => (q.2, p.2)

/-- Run a sequence of admission operations on a leaky bucket. -/
def LeakyBucketLimiter.runAdm (lb : LeakyBucketLimiter) (ops : List AdmOp) :
    Option (LeakyBucketLimiter × ℕ) :=
  ops.foldlM LeakyBucketLimiter.applyAdm (lb, 0)

/-- A contract operation from the set that the amended bound-invariant
claim covers: admission, introspection and reconfiguration, but no
reservations. Rates and bursts are carried as the nonnegative values the
amended claim restricts to. -/
inductive CfgOp
  | allowN (t : Int) (n : ℕ)
  | tokensAt (t : Int)
  | setLimitAt (t : Int) (r : ℚ)
  | setBurstAt (t : Int) (b : ℕ)
deriving DecidableEq, Repr

/-- The timestamp an operation carries. -/
def CfgOp.time : CfgOp → Int
  | .allowN t _ => t
  | .tokensAt t => t
  | .setLimitAt t _ => t
  | .setBurstAt t _ => t

/-- Timestamps of a sequence of operations are nondecreasing and bounded
below by `t0`. -/
def cfgMono : Int → List CfgOp → Bool
  | _, [] => true
  | t0, op :: rest => decide (t0 ≤ op.time) && cfgMono op.time rest

/-- Every rate installed by the sequence is nonnegative. -/
def cfgRatesOK : List CfgOp → Bool
  | [] => true
  | .setLimitAt _ r :: rest => decide (0 ≤ r) && cfgRatesOK rest
  | _ :: rest => cfgRatesOK rest

/-- The sequence contains no `setBurstAt`. -/
def cfgNoSetBurst : List CfgOp → Bool
  | [] => true
  | .setBurstAt _ _ :: _ => false
  | _ :: rest => cfgNoSetBurst rest

/-- Apply one contract operation to a token bucket. -/
def TokenBucketLimiter.applyCfg (tb : TokenBucketLimiter) (op : CfgOp) :
    TokenBucketLimiter :=
  match op with
  | .allowN t n => (tb.AllowN t (n : Int)).2
  | .tokensAt t => (tb.TokensAt t).2
  | .setLimitAt t r => tb.SetLimitAt t r
  | .setBurstAt t b => tb.SetBurstAt t (b : Int)

/-- Run a sequence of contract operations on a token bucket. -/
def TokenBucketLimiter.runCfg (tb : TokenBucketLimiter) (ops : List CfgOp) :
    TokenBucketLimiter :=
  ops.foldl TokenBucketLimiter.applyCfg tb

/-- Apply one contract operation to a leaky bucket (`none` on panic). -/
def LeakyBucketLimiter.applyCfg (lb : LeakyBucketLimiter) (op : CfgOp) :
    Option LeakyBucketLimiter :=
  match op with
  | .allowN t n => (lb.AllowN t (n : Int)).map Prod.snd
  | .tokensAt t => (lb.TokensAt t).map Prod.snd
  | .setLimitAt t r => lb.SetLimitAt t r
  | .setBurstAt t b => lb.SetBurstAt t (b : Int)

/-- Run a sequence of contract operations on a leaky bucket. -/
def LeakyBucketLimiter.runCfg (lb : LeakyBucketLimiter) (ops : List CfgOp) :
    Option LeakyBucketLimiter :=
  ops.foldlM LeakyBucketLimiter.applyCfg lb

/-- Apply one contract operation to a sliding window. -/
def SlidingWindowLimiter.applyCfg (sw : SlidingWindowLimiter) (op : CfgOp) :
    SlidingWindowLimiter :=
  match op with
  | .allowN t n => (sw.AllowN t (n : Int)).2
  | .tokensAt t => (sw.TokensAt t).2
  | .setLimitAt t r => sw.SetLimitAt t r
  | .setBurstAt t b => sw.SetBurstAt t (b : Int)

/-- Run a sequence of contract operations on a sliding window. -/
def SlidingWindowLimiter.runCfg (sw : SlidingWindowLimiter) (ops : List CfgOp) :
    SlidingWindowLimiter :=
  ops.foldl SlidingWindowLimiter.applyCfg sw

/-- Apply one contract operation to a fixed window. -/
def FixedWindowLimiter.applyCfg (fw : FixedWindowLimiter) (op : CfgOp) :
    FixedWindowLimiter :=
  match op with
  | .allowN t n => (fw.AllowN t (n : Int)).2
  | .tokensAt t => (fw.TokensAt t).2
  | .setLimitAt t r => fw.SetLimitAt t r
  | .setBurstAt t b => fw.SetBurstAt t (b : Int)

/-- Run a sequence of contract operations on a fixed window. -/
def FixedWindowLimiter.runCfg (fw : FixedWindowLimiter) (ops : List CfgOp) :
    FixedWindowLimiter :=
  ops.foldl FixedWindowLimiter.applyCfg fw

/-! ## Helper lemmas -/

/-- The `Inf` sentinel is a positive rational, hence distinct from any
nonpositive rate. -/
theorem maxFloat64_pos : 0 < maxFloat64 := by norm_num [maxFloat64]

/-- A nonpositive rate is never the `Inf` sentinel. -/
theorem ne_maxFloat64_of_nonpos {r : ℚ} (h : r ≤ 0) : r ≠ maxFloat64 :=
  fun he => absurd (he ▸ h) (not_le.mpr maxFloat64_pos)

/-- Go truncation of a nonnegative value is nonnegative. -/
theorem goTrunc_nonneg {q : ℚ} (h : 0 ≤ q) : 0 ≤ goTrunc q :=
  Int.tdiv_nonneg (Rat.num_nonneg.mpr h) (by positivity)

/-- Go truncation of zero is zero. -/
theorem goTrunc_zero : goTrunc 0 = 0 := rfl

/-- `secondsOf` of a nonnegative duration is nonnegative. -/
theorem secondsOf_nonneg {d : Int} (h : 0 ≤ d) : 0 ≤ secondsOf d := by
  unfold secondsOf nsPerSecond
  positivity

/-- `dropWhile` never lengthens a list. -/
theorem length_dropWhile_le (p : Int → Bool) (l : List Int) :
    (l.dropWhile p).length ≤ l.length :=
  (List.dropWhile_suffix p).sublist.length_le

/-- With the unlimited-rate sentinel installed, `leak` is the identity: it
returns before draining anything. -/
theorem lbLeak_inf {lb : LeakyBucketLimiter} (h : lb.limit = maxFloat64) (now : Int) :
    lb.leak now = some lb := by
  unfold LeakyBucketLimiter.leak
  rw [if_pos (Or.inl h)]

/-- `dropWhile` keeps a replicated list intact when the predicate rejects
its element. -/
theorem dropWhile_replicate_of_neg (p : Int → Bool) (a : Int) (h : p a = false) :
    ∀ j : ℕ, List.dropWhile p (List.replicate j a) = List.replicate j a := by
  intro j
  cases j with
  | zero => rfl
  | succ j => simp [List.replicate_succ, List.dropWhile_cons, h]

/-! ## Claim theorems -/

/-- Claim C2 (code divergence): with the unlimited rate sentinel, the leaky
bucket's `leak` returns early without draining the queue, so once the queue
is full every later `Allow` is denied — even 10^6 seconds later — although
the spec says an unlimited rate always admits. -/
theorem c2_code_divergence :
    ∃ s1 : LeakyBucketLimiter,
      (NewLeakyBucket maxFloat64 1 0).AllowN 1 1 = some (true, s1) ∧
      (s1.AllowN 1000000000000000 1).map Prod.fst = some false := by
  refine ⟨⟨maxFloat64, 1, [1], 0⟩, ?_, ?_⟩
  · unfold LeakyBucketLimiter.AllowN NewLeakyBucket
    rw [lbLeak_inf rfl]
    simp
  · unfold LeakyBucketLimiter.AllowN
    rw [lbLeak_inf rfl]
    simp

/-- Claim C6 (code divergence): `leak` computes a negative `leakCount` from
a historical timestamp (elapsed < 0) and reaches Go's `lb.queue[leakCount:]`
with a negative index, a slice-bounds panic (modelled as `none`): an
`AllowN` with a timestamp earlier than the last-processed one does not
complete normally on the leaky bucket. -/
theorem c6_code_divergence :
    (((NewLeakyBucket 1 2 10000000000).AllowN 10000000000 1).bind fun p =>
      p.2.AllowN 5000000000 1) = none := by with_unfolding_all rfl

/-- Claim C10: leaky-bucket draining is not additive over time. With rate 1/s
and two queued units, leaking 0 → 0.5s → 1s drains nothing (each step
truncates `rate × elapsed` to 0 yet resets the last-leak timestamp), while
leaking 0 → 1s directly drains one unit. -/
theorem c10_leak_not_additive :
    ∃ (s s1 s2 s3 : LeakyBucketLimiter) (t1 t2 : Int),
      s.lastLeakTime < t1 ∧ t1 < t2 ∧
      s.leak t1 = some s1 ∧ s1.leak t2 = some s2 ∧ s.leak t2 = some s3 ∧
      s2.queue.length = s.queue.length ∧ s3.queue.length < s2.queue.length :=
  ⟨⟨1, 2, [0, 0], 0⟩, ⟨1, 2, [0, 0], 500000000⟩, ⟨1, 2, [0, 0], 1000000000⟩,
   ⟨1, 2, [0], 1000000000⟩, 500000000, 1000000000,
   by decide, by decide,
   by with_unfolding_all rfl, by with_unfolding_all rfl, by with_unfolding_all rfl,
   rfl, by decide⟩

/-- Claim C1 (counterexample): the fixed window with rate 0 falls back to a
1-second window, so with burst 1 the second consecutive `Allow` (1 second
later) also succeeds, refuting the rate-0 branch; and the leaky bucket with
rate 1 whose calls all carry the timestamp 5s (after construction at 0)
leaks on the second call — `lastLeakTime` still holds the construction
instant — so the second of two same-timestamp calls also succeeds with
burst 1, refuting the same-timestamp branch. -/
theorem c1_counterexample :
    ((NewFixedWindow 0 1 0).AllowN 0 1).1 = true ∧
    (((NewFixedWindow 0 1 0).AllowN 0 1).2.AllowN 1000000000 1).1 = true ∧
    (NewLeakyBucket 1 1 0).runAllows 5000000000 2 = some [true, true] := by
  refine ⟨by with_unfolding_all rfl, by with_unfolding_all rfl, by with_unfolding_all rfl⟩

/-- Claim C3 (counterexample): the fixed window with rate 0 admits beyond
its initial burst (1-second fallback window), and the token bucket with a
negative rate admits beyond its initial burst when a historical timestamp
makes `rate × elapsed` positive. -/
theorem c3_counterexample :
    ((NewFixedWindow 0 1 0).AllowN 0 1).1 = true ∧
    (((NewFixedWindow 0 1 0).AllowN 0 1).2.AllowN 1000000000 1).1 = true ∧
    ((NewTokenBucket (-1) 1 10000000000).AllowN 10000000000 1).1 = true ∧
    (((NewTokenBucket (-1) 1 10000000000).AllowN 10000000000 1).2.AllowN 5000000000 1).1 =
      true := by
  refine ⟨by with_unfolding_all rfl, by with_unfolding_all rfl,
    by with_unfolding_all rfl, by with_unfolding_all rfl⟩

/-- Claim C4 (counterexample): `ReserveN` deficit-spends the token bucket
below zero; sliding-window `SetBurstAt` shrinks the burst without trimming
recorded timestamps; a historical timestamp drives the token count negative
with a positive rate; and a negative rate drives it negative with a forward
timestamp. -/
theorem c4_counterexample :
    (((NewTokenBucket 0 1 0).AllowN 0 1).2.ReserveN 0 1).2.tokens < 0 ∧
    ((((NewSlidingWindow 0 2).AllowN 0 2).2.SetBurstAt 0 1).maxCount <
      ((((NewSlidingWindow 0 2).AllowN 0 2).2.SetBurstAt 0 1).timestamps.length : Int)) ∧
    ((((NewTokenBucket 1 5 0).AllowN 10000000000 5).2.TokensAt 0).2.tokens < 0) ∧
    (((NewTokenBucket (-1) 5 0).TokensAt 10000000000).2.tokens < 0) := by
  refine ⟨of_decide_eq_true (by with_unfolding_all rfl),
    of_decide_eq_true (by with_unfolding_all rfl),
    of_decide_eq_true (by with_unfolding_all rfl),
    of_decide_eq_true (by with_unfolding_all rfl)⟩

/-- Claim C5 (counterexample): a `ReserveN` for more than the burst returns
a non-ok reservation but does not leave the token bucket untouched — the
embedded `advance` has already replenished tokens and moved `lastUpdated`. -/
theorem c5_counterexample :
    ((((NewTokenBucket 1 1 0).AllowN 0 1).2).ReserveN 5000000000 2).1.ok = false ∧
    ((NewTokenBucket 1 1 0).AllowN 0 1).2.tokens = 0 ∧
    ((((NewTokenBucket 1 1 0).AllowN 0 1).2).ReserveN 5000000000 2).2.tokens = 1 := by
  refine ⟨by with_unfolding_all rfl, by with_unfolding_all rfl, by with_unfolding_all rfl⟩

/-- Claim C7 (counterexample): the token-bucket accounting is not monotone
under out-of-order timestamps — after exhausting the bucket at t = 10s, a
`TokensAt` carrying the historical timestamp 0 applies a negative elapsed
delta and drops the token count from 0 to −10. -/
theorem c7_counterexample :
    ((NewTokenBucket 1 5 0).AllowN 10000000000 5).2.tokens = 0 ∧
    (((NewTokenBucket 1 5 0).AllowN 10000000000 5).2.TokensAt 0).2.tokens = -10 := by
  refine ⟨by with_unfolding_all rfl, by with_unfolding_all rfl⟩

/-- Claim C8 (counterexample): `NewFixedWindow` stores the raw creation
instant as the initial window start — constructed at t = 1.5s with a
1-second window, the window start is not a multiple of the window. -/
theorem c8_counterexample :
    ¬((NewFixedWindow 1 1 1500000000).windowStart %
      (NewFixedWindow 1 1 1500000000).window = 0) :=
  of_decide_eq_true (by with_unfolding_all rfl)

/-- `advance` is idempotent at a fixed instant: advancing an already
advanced bucket adds zero elapsed time and leaves it unchanged. -/
theorem tbAdvance_idem (tb : TokenBucketLimiter) (t : Int) :
    (tb.advance t).advance t = tb.advance t := by
  obtain ⟨L, B, tok, lu⟩ := tb
  unfold TokenBucketLimiter.advance
  by_cases h : L = maxFloat64
  · simp [h]
  · simp [h, secondsOf, min_eq_left (min_le_right _ _)]

/-- At the instant the bucket last leaked, `leakCount` is zero. -/
theorem lbLeakCount_now {lb : LeakyBucketLimiter} {t : Int}
    (h : lb.lastLeakTime = t) : lb.leakCount t = 0 := by
  unfold LeakyBucketLimiter.leakCount
  rw [h, sub_self]
  have hs : secondsOf 0 = 0 := by simp [secondsOf]
  rw [hs, mul_zero, goTrunc_zero, if_neg (by simp)]

/-- A successful `leak` is idempotent at a fixed instant. -/
theorem lbLeak_idem {lb lb' : LeakyBucketLimiter} {t : Int}
    (h : lb.leak t = some lb') : lb'.leak t = some lb' := by
  unfold LeakyBucketLimiter.leak at h ⊢
  by_cases hg : lb.limit = maxFloat64 ∨ lb.queue.length = 0
  · rw [if_pos hg] at h
    obtain rfl : lb = lb' := by injection h
    rw [if_pos hg]
  · rw [if_neg hg] at h
    by_cases hneg : lb.leakCount t < 0
    · rw [if_pos hneg] at h
      exact absurd h (by simp)
    · rw [if_neg hneg] at h
      obtain rfl :
          ({ lb with
             lastLeakTime := t
             queue := lb.queue.drop (lb.leakCount t).toNat } :
            LeakyBucketLimiter) = lb' := by injection h
      by_cases he : lb.limit = maxFloat64 ∨
          (lb.queue.drop (lb.leakCount t).toNat).length = 0
      · exact if_pos he
      · rw [if_neg he, if_neg (by rw [lbLeakCount_now rfl]; omega)]
        rw [lbLeakCount_now rfl]
        simp

/-- `cleanup` is idempotent at a fixed instant. -/
theorem swCleanup_idem (sw : SlidingWindowLimiter) (t : Int) :
    (sw.cleanup t).cleanup t = sw.cleanup t := by
  obtain ⟨L, m, w, ts⟩ := sw
  simp [SlidingWindowLimiter.cleanup, List.dropWhile_idempotent]

/-- `resetIfNeeded` is idempotent at a fixed instant: a second rollover
check at the same instant either does not fire or rewrites the same
values. -/
theorem fwResetIfNeeded_idem (fw : FixedWindowLimiter) (t : Int) :
    (fw.resetIfNeeded t).resetIfNeeded t = fw.resetIfNeeded t := by
  obtain ⟨L, m, w, c, ws⟩ := fw
  unfold FixedWindowLimiter.resetIfNeeded
  by_cases h : w ≤ t - ws
  · by_cases h2 : w ≤ t - goTruncate t w <;> simp [h, h2]
  · simp [h]

/-- `resetIfNeeded` does not touch the configured burst. -/
theorem fwResetIfNeeded_maxCount (fw : FixedWindowLimiter) (t : Int) :
    (fw.resetIfNeeded t).maxCount = fw.maxCount := by
  unfold FixedWindowLimiter.resetIfNeeded
  split <;> rfl

/-- `cleanup` does not touch the configured burst. -/
theorem swCleanup_maxCount (sw : SlidingWindowLimiter) (t : Int) :
    (sw.cleanup t).maxCount = sw.maxCount := rfl

/-- `advance` does not touch the configured burst. -/
theorem tbAdvance_burst (tb : TokenBucketLimiter) (t : Int) :
    (tb.advance t).burst = tb.burst := by
  unfold TokenBucketLimiter.advance
  split <;> rfl

/-- A successful `leak` preserves the configured rate and capacity. -/
theorem lbLeak_preserves {lb s : LeakyBucketLimiter} {t : Int}
    (h : lb.leak t = some s) : s.limit = lb.limit ∧ s.capacity = lb.capacity := by
  unfold LeakyBucketLimiter.leak at h
  split at h
  · obtain rfl : lb = s := by injection h
    exact ⟨rfl, rfl⟩
  · split at h
    · exact absurd h (by simp)
    · obtain rfl :
          ({ lb with
             lastLeakTime := t
             queue := lb.queue.drop (lb.leakCount t).toNat } :
            LeakyBucketLimiter) = s := by injection h
      exact ⟨rfl, rfl⟩

/-- Pre-advancing a token bucket to the call instant does not change what
`AllowN` does. -/
theorem tbAllowN_advance (tb : TokenBucketLimiter) (t : Int) (n : Int) :
    (tb.advance t).AllowN t n = tb.AllowN t n := by
  unfold TokenBucketLimiter.AllowN
  rw [tbAdvance_idem]

/-- Pre-leaking a leaky bucket to the call instant does not change what
`AllowN` does. -/
theorem lbAllowN_leak (lb : LeakyBucketLimiter) (t : Int) (n : Int) :
    ((lb.leak t).bind fun s => s.AllowN t n) = lb.AllowN t n := by
  cases h : lb.leak t with
  | none => unfold LeakyBucketLimiter.AllowN; rw [h]; rfl
  | some s =>
    unfold LeakyBucketLimiter.AllowN
    rw [h, Option.some_bind, lbLeak_idem h]

/-- Pre-cleaning a sliding window to the call instant does not change what
`AllowN` does. -/
theorem swAllowN_cleanup (sw : SlidingWindowLimiter) (t : Int) (n : Int) :
    (sw.cleanup t).AllowN t n = sw.AllowN t n := by
  unfold SlidingWindowLimiter.AllowN
  rw [swCleanup_idem]

/-- Pre-resetting a fixed window to the call instant does not change what
`AllowN` does. -/
theorem fwAllowN_reset (fw : FixedWindowLimiter) (t : Int) (n : Int) :
    (fw.resetIfNeeded t).AllowN t n = fw.AllowN t n := by
  unfold FixedWindowLimiter.AllowN
  rw [fwResetIfNeeded_idem]

/-- Pre-advancing a token bucket is a no-op for `ReserveN`. -/
theorem tbReserveN_advance (tb : TokenBucketLimiter) (t : Int) (n : Int) :
    (tb.advance t).ReserveN t n = tb.ReserveN t n := by
  unfold TokenBucketLimiter.ReserveN
  rw [tbAdvance_idem]

/-- Pre-advancing a token bucket is a no-op for `WaitN`'s synchronous
part. -/
theorem tbWaitNSync_advance (tb : TokenBucketLimiter) (t : Int) (n : Int) :
    (tb.advance t).WaitNSync t n = tb.WaitNSync t n := by
  unfold TokenBucketLimiter.WaitNSync
  rw [tbReserveN_advance]

/-- Pre-advancing a token bucket is a no-op for `TokensAt`. -/
theorem tbTokensAt_advance (tb : TokenBucketLimiter) (t : Int) :
    (tb.advance t).TokensAt t = tb.TokensAt t := by
  unfold TokenBucketLimiter.TokensAt
  rw [tbAdvance_idem]

/-- Pre-advancing a token bucket is a no-op for `SetLimitAt`. -/
theorem tbSetLimitAt_advance (tb : TokenBucketLimiter) (t : Int) (r : ℚ) :
    (tb.advance t).SetLimitAt t r = tb.SetLimitAt t r := by
  unfold TokenBucketLimiter.SetLimitAt
  rw [tbAdvance_idem]

/-- Pre-advancing a token bucket is a no-op for `SetBurstAt`. -/
theorem tbSetBurstAt_advance (tb : TokenBucketLimiter) (t : Int) (b : Int) :
    (tb.advance t).SetBurstAt t b = tb.SetBurstAt t b := by
  unfold TokenBucketLimiter.SetBurstAt
  rw [tbAdvance_idem]

/-- Pre-leaking composes away for any leak-then-`map` operation. -/
theorem lbLeak_bind_map {α : Type} (lb : LeakyBucketLimiter) (t : Int)
    (f : LeakyBucketLimiter → α) :
    ((lb.leak t).bind fun s => (s.leak t).map f) = (lb.leak t).map f := by
  cases h : lb.leak t with
  | none => rfl
  | some s => rw [Option.some_bind, lbLeak_idem h]

/-- Pre-leaking composes away for any leak-then-`bind` operation. -/
theorem lbLeak_bind_bind {α : Type} (lb : LeakyBucketLimiter) (t : Int)
    (f : LeakyBucketLimiter → Option α) :
    ((lb.leak t).bind fun s => (s.leak t).bind f) = (lb.leak t).bind f := by
  cases h : lb.leak t with
  | none => rfl
  | some s => rw [Option.some_bind, lbLeak_idem h]

/-- Pre-leaking a leaky bucket is a no-op for `ReserveN`. -/
theorem lbReserveN_leak (lb : LeakyBucketLimiter) (t : Int) (n : Int) :
    ((lb.leak t).bind fun s => s.ReserveN t n) = lb.ReserveN t n := by
  unfold LeakyBucketLimiter.ReserveN
  exact lbLeak_bind_map lb t _

/-- Pre-leaking a leaky bucket is a no-op for `WaitN`'s synchronous part. -/
theorem lbWaitNSync_leak (lb : LeakyBucketLimiter) (t : Int) (n : Int) :
    ((lb.leak t).bind fun s => s.WaitNSync t n) = lb.WaitNSync t n := by
  unfold LeakyBucketLimiter.WaitNSync
  rw [← lbReserveN_leak lb t n]
  cases h : lb.leak t with
  | none => rfl
  | some s => rw [Option.some_bind, Option.some_bind]

/-- Pre-leaking a leaky bucket is a no-op for `TokensAt`. -/
theorem lbTokensAt_leak (lb : LeakyBucketLimiter) (t : Int) :
    ((lb.leak t).bind fun s => s.TokensAt t) = lb.TokensAt t := by
  unfold LeakyBucketLimiter.TokensAt
  exact lbLeak_bind_map lb t _

/-- Pre-leaking a leaky bucket is a no-op for `SetLimitAt`. -/
theorem lbSetLimitAt_leak (lb : LeakyBucketLimiter) (t : Int) (r : ℚ) :
    ((lb.leak t).bind fun s => s.SetLimitAt t r) = lb.SetLimitAt t r := by
  unfold LeakyBucketLimiter.SetLimitAt
  exact lbLeak_bind_map lb t _

/-- Pre-leaking a leaky bucket is a no-op for `SetBurstAt`. -/
theorem lbSetBurstAt_leak (lb : LeakyBucketLimiter) (t : Int) (b : Int) :
    ((lb.leak t).bind fun s => s.SetBurstAt t b) = lb.SetBurstAt t b := by
  unfold LeakyBucketLimiter.SetBurstAt
  exact lbLeak_bind_bind lb t _

/-- Pre-cleaning a sliding window is a no-op for `ReserveN`. -/
theorem swReserveN_cleanup (sw : SlidingWindowLimiter) (t : Int) (n : Int) :
    (sw.cleanup t).ReserveN t n = sw.ReserveN t n := by
  unfold SlidingWindowLimiter.ReserveN
  rw [swAllowN_cleanup]

/-- Pre-cleaning a sliding window is a no-op for `WaitN`'s synchronous
part. -/
theorem swWaitNSync_cleanup (sw : SlidingWindowLimiter) (t : Int) (n : Int) :
    (sw.cleanup t).WaitNSync t n = sw.WaitNSync t n := by
  unfold SlidingWindowLimiter.WaitNSync
  rw [swCleanup_idem]

/-- Pre-cleaning a sliding window is a no-op for `TokensAt`. -/
theorem swTokensAt_cleanup (sw : SlidingWindowLimiter) (t : Int) :
    (sw.cleanup t).TokensAt t = sw.TokensAt t := by
  unfold SlidingWindowLimiter.TokensAt
  rw [swCleanup_idem]

/-- Pre-cleaning a sliding window is a no-op for `SetLimitAt`. -/
theorem swSetLimitAt_cleanup (sw : SlidingWindowLimiter) (t : Int) (r : ℚ) :
    (sw.cleanup t).SetLimitAt t r = sw.SetLimitAt t r := by
  unfold SlidingWindowLimiter.SetLimitAt
  rw [swCleanup_idem]

/-- Pre-cleaning a sliding window is a no-op for `SetBurstAt`. -/
theorem swSetBurstAt_cleanup (sw : SlidingWindowLimiter) (t : Int) (b : Int) :
    (sw.cleanup t).SetBurstAt t b = sw.SetBurstAt t b := by
  unfold SlidingWindowLimiter.SetBurstAt
  rw [swCleanup_idem]

/-- Pre-resetting a fixed window is a no-op for `ReserveN`. -/
theorem fwReserveN_reset (fw : FixedWindowLimiter) (t : Int) (n : Int) :
    (fw.resetIfNeeded t).ReserveN t n = fw.ReserveN t n := by
  unfold FixedWindowLimiter.ReserveN
  rw [fwAllowN_reset]

/-- Pre-resetting a fixed window is a no-op for `WaitN`'s synchronous
part. -/
theorem fwWaitNSync_reset (fw : FixedWindowLimiter) (t : Int) (n : Int) :
    (fw.resetIfNeeded t).WaitNSync t n = fw.WaitNSync t n := by
  unfold FixedWindowLimiter.WaitNSync
  rw [fwResetIfNeeded_idem]

/-- Pre-resetting a fixed window is a no-op for `TokensAt`. -/
theorem fwTokensAt_reset (fw : FixedWindowLimiter) (t : Int) :
    (fw.resetIfNeeded t).TokensAt t = fw.TokensAt t := by
  unfold FixedWindowLimiter.TokensAt
  rw [fwResetIfNeeded_idem]

/-- Pre-resetting a fixed window is a no-op for `SetLimitAt`. -/
theorem fwSetLimitAt_reset (fw : FixedWindowLimiter) (t : Int) (r : ℚ) :
    (fw.resetIfNeeded t).SetLimitAt t r = fw.SetLimitAt t r := by
  unfold FixedWindowLimiter.SetLimitAt
  rw [fwResetIfNeeded_idem]

/-- Pre-resetting a fixed window is a no-op for `SetBurstAt`. -/
theorem fwSetBurstAt_reset (fw : FixedWindowLimiter) (t : Int) (b : Int) :
    (fw.resetIfNeeded t).SetBurstAt t b = fw.SetBurstAt t b := by
  unfold FixedWindowLimiter.SetBurstAt
  rw [fwResetIfNeeded_idem]

/-- Claim C9: for the sliding and fixed windows, `ReserveN` is equivalent
to `AllowN` — same admission decision, exactly the same state update, an
ok reservation whose `timeToAct` is the call instant `t` itself (zero
delay) on success, and the zero-valued non-ok reservation on failure. -/
theorem c9_reserve_equiv_allow :
    ∀ (sw : SlidingWindowLimiter) (fw : FixedWindowLimiter) (t : Int) (n : Int),
      ((sw.ReserveN t n).1.ok = (sw.AllowN t n).1 ∧
       (sw.ReserveN t n).2 = (sw.AllowN t n).2 ∧
       (sw.ReserveN t n).1.timeToAct = (if (sw.AllowN t n).1 then t else 0) ∧
       (sw.ReserveN t n).1.tokens = (if (sw.AllowN t n).1 then n else 0)) ∧
      ((fw.ReserveN t n).1.ok = (fw.AllowN t n).1 ∧
       (fw.ReserveN t n).2 = (fw.AllowN t n).2 ∧
       (fw.ReserveN t n).1.timeToAct = (if (fw.AllowN t n).1 then t else 0) ∧
       (fw.ReserveN t n).1.tokens = (if (fw.AllowN t n).1 then n else 0)) := by
  intro sw fw t n
  constructor
  · unfold SlidingWindowLimiter.ReserveN
    cases h : (sw.AllowN t n).1 <;> simp [h, Reservation.notOk]
  · unfold FixedWindowLimiter.ReserveN
    cases h : (fw.AllowN t n).1 <;> simp [h, Reservation.notOk]

/-- Claim C7 (amended): every admission first advances the engine's
bookkeeping to the operation's timestamp and only then evaluates admission:
pre-advancing (`advance` / `leak` / `cleanup` / `resetIfNeeded`) to the
call instant is a no-op, and the decision is exactly the availability test
on the advanced state. (The monotonicity half of the original claim is
false: see the counterexample.) -/
theorem c7_amended :
    (∀ (tb : TokenBucketLimiter) (t : Int) (n : Int) (r : ℚ) (b : Int),
       (tb.advance t).AllowN t n = tb.AllowN t n ∧
       (tb.advance t).ReserveN t n = tb.ReserveN t n ∧
       (tb.advance t).WaitNSync t n = tb.WaitNSync t n ∧
       (tb.advance t).TokensAt t = tb.TokensAt t ∧
       (tb.advance t).SetLimitAt t r = tb.SetLimitAt t r ∧
       (tb.advance t).SetBurstAt t b = tb.SetBurstAt t b ∧
       (tb.AllowN t n).1 = decide ((n : ℚ) ≤ (tb.advance t).tokens)) ∧
    (∀ (lb : LeakyBucketLimiter) (t : Int) (n : Int) (r : ℚ) (b : Int),
       ((lb.leak t).bind fun s => s.AllowN t n) = lb.AllowN t n ∧
       ((lb.leak t).bind fun s => s.ReserveN t n) = lb.ReserveN t n ∧
       ((lb.leak t).bind fun s => s.WaitNSync t n) = lb.WaitNSync t n ∧
       ((lb.leak t).bind fun s => s.TokensAt t) = lb.TokensAt t ∧
       ((lb.leak t).bind fun s => s.SetLimitAt t r) = lb.SetLimitAt t r ∧
       ((lb.leak t).bind fun s => s.SetBurstAt t b) = lb.SetBurstAt t b) ∧
    (∀ (sw : SlidingWindowLimiter) (t : Int) (n : Int) (r : ℚ) (b : Int),
       (sw.cleanup t).AllowN t n = sw.AllowN t n ∧
       (sw.cleanup t).ReserveN t n = sw.ReserveN t n ∧
       (sw.cleanup t).WaitNSync t n = sw.WaitNSync t n ∧
       (sw.cleanup t).TokensAt t = sw.TokensAt t ∧
       (sw.cleanup t).SetLimitAt t r = sw.SetLimitAt t r ∧
       (sw.cleanup t).SetBurstAt t b = sw.SetBurstAt t b ∧
       (sw.AllowN t n).1 =
         decide (((sw.cleanup t).timestamps.length : Int) + n ≤ sw.maxCount)) ∧
    (∀ (fw : FixedWindowLimiter) (t : Int) (n : Int) (r : ℚ) (b : Int),
       (fw.resetIfNeeded t).AllowN t n = fw.AllowN t n ∧
       (fw.resetIfNeeded t).ReserveN t n = fw.ReserveN t n ∧
       (fw.resetIfNeeded t).WaitNSync t n = fw.WaitNSync t n ∧
       (fw.resetIfNeeded t).TokensAt t = fw.TokensAt t ∧
       (fw.resetIfNeeded t).SetLimitAt t r = fw.SetLimitAt t r ∧
       (fw.resetIfNeeded t).SetBurstAt t b = fw.SetBurstAt t b ∧
       (fw.AllowN t n).1 =
         decide ((fw.resetIfNeeded t).currentCount + n ≤ fw.maxCount)) := by
  refine ⟨fun tb t n r b => ⟨tbAllowN_advance tb t n, tbReserveN_advance tb t n,
      tbWaitNSync_advance tb t n, tbTokensAt_advance tb t,
      tbSetLimitAt_advance tb t r, tbSetBurstAt_advance tb t b, ?_⟩,
    fun lb t n r b => ⟨lbAllowN_leak lb t n, lbReserveN_leak lb t n,
      lbWaitNSync_leak lb t n, lbTokensAt_leak lb t,
      lbSetLimitAt_leak lb t r, lbSetBurstAt_leak lb t b⟩,
    fun sw t n r b => ⟨swAllowN_cleanup sw t n, swReserveN_cleanup sw t n,
      swWaitNSync_cleanup sw t n, swTokensAt_cleanup sw t,
      swSetLimitAt_cleanup sw t r, swSetBurstAt_cleanup sw t b, ?_⟩,
    fun fw t n r b => ⟨fwAllowN_reset fw t n, fwReserveN_reset fw t n,
      fwWaitNSync_reset fw t n, fwTokensAt_reset fw t,
      fwSetLimitAt_reset fw t r, fwSetBurstAt_reset fw t b, ?_⟩⟩
  · by_cases hc : (n : ℚ) ≤ (tb.advance t).tokens <;>
      simp [TokenBucketLimiter.AllowN, hc]
  · rw [← swCleanup_maxCount sw t]
    by_cases hc : ((sw.cleanup t).timestamps.length : Int) + n ≤ (sw.cleanup t).maxCount <;>
      simp [SlidingWindowLimiter.AllowN, hc]
  · rw [← fwResetIfNeeded_maxCount fw t]
    by_cases hc : (fw.resetIfNeeded t).currentCount + n ≤ (fw.resetIfNeeded t).maxCount <;>
      simp [FixedWindowLimiter.AllowN, hc]

/-- Claim C8 (amended): after every rollover the fixed window's start is
re-aligned to an exact multiple of the window duration (and the counter is
zeroed); the initial window start at construction is the raw creation
instant, which need not be aligned (see the counterexample). -/
theorem c8_amended :
    ∀ (fw : FixedWindowLimiter) (now : Int),
      0 < fw.window → fw.window ≤ now - fw.windowStart →
      (fw.resetIfNeeded now).currentCount = 0 ∧
      (fw.resetIfNeeded now).windowStart % fw.window = 0 ∧
      (fw.resetIfNeeded now).window = fw.window := by
  intro fw now hw hro
  unfold FixedWindowLimiter.resetIfNeeded goTruncate
  rw [if_pos hro, if_neg (not_le.mpr hw)]
  refine ⟨rfl, ?_, rfl⟩
  show (now - now % fw.window) % fw.window = 0
  rw [Int.sub_emod, Int.emod_emod_of_dvd _ dvd_rfl, sub_self, Int.zero_emod]

/-- Witness for `c8_amended` at a concrete rollover. -/
theorem c8_amended_witness :
    ((NewFixedWindow 1 1 1500000000).resetIfNeeded 2500000000).currentCount = 0 ∧
    ((NewFixedWindow 1 1 1500000000).resetIfNeeded 2500000000).windowStart %
      (NewFixedWindow 1 1 1500000000).window = 0 ∧
    ((NewFixedWindow 1 1 1500000000).resetIfNeeded 2500000000).window =
      (NewFixedWindow 1 1 1500000000).window :=
  c8_amended (NewFixedWindow 1 1 1500000000) 2500000000
    (of_decide_eq_true (by with_unfolding_all rfl))
    (of_decide_eq_true (by with_unfolding_all rfl))

/-- `resetIfNeeded` keeps a nonnegative counter nonnegative. -/
theorem fwResetIfNeeded_count_nonneg {fw : FixedWindowLimiter} (t : Int)
    (h : 0 ≤ fw.currentCount) : 0 ≤ (fw.resetIfNeeded t).currentCount := by
  unfold FixedWindowLimiter.resetIfNeeded
  split
  · exact le_refl 0
  · exact h

/-- Claim C5 (amended): a `ReserveN` for `n` greater than the current
burst/capacity returns the non-ok reservation and performs no state change
beyond the advance of time-dependent bookkeeping that every operation
performs (`advance`/`leak`/`cleanup`/`resetIfNeeded`); `WaitN` reports the
same condition synchronously (outcome `err` before any suspension). The
fixed-window case assumes the counter is nonnegative, as it is in every
state reachable with nonnegative `n`. -/
theorem c5_amended :
    (∀ (tb : TokenBucketLimiter) (t : Int) (n : Int), tb.burst < n →
       (tb.ReserveN t n).1 = Reservation.notOk ∧
       (tb.ReserveN t n).2 = tb.advance t ∧
       (tb.WaitNSync t n).1 = WaitOutcome.err ∧
       (tb.WaitNSync t n).2 = tb.advance t) ∧
    (∀ (lb : LeakyBucketLimiter) (t : Int) (n : Int), lb.capacity < n →
       lb.ReserveN t n = ((lb.leak t).map fun s => (Reservation.notOk, s)) ∧
       lb.WaitNSync t n = ((lb.leak t).map fun s => (WaitOutcome.err, s))) ∧
    (∀ (sw : SlidingWindowLimiter) (t : Int) (n : Int), sw.maxCount < n →
       (sw.ReserveN t n).1 = Reservation.notOk ∧
       (sw.ReserveN t n).2 = sw.cleanup t ∧
       (sw.WaitNSync t n).1 = WaitOutcome.err ∧
       (sw.WaitNSync t n).2 = sw.cleanup t) ∧
    (∀ (fw : FixedWindowLimiter) (t : Int) (n : Int),
       0 ≤ fw.currentCount → fw.maxCount < n →
       (fw.ReserveN t n).1 = Reservation.notOk ∧
       (fw.ReserveN t n).2 = fw.resetIfNeeded t ∧
       (fw.WaitNSync t n).1 = WaitOutcome.err ∧
       (fw.WaitNSync t n).2 = fw.resetIfNeeded t) := by
  refine ⟨?_, ?_, ?_, ?_⟩
  · intro tb t n h
    have hb : (tb.advance t).burst < n := by rw [tbAdvance_burst]; exact h
    have hr : tb.ReserveN t n = (Reservation.notOk, tb.advance t) := by
      simp only [TokenBucketLimiter.ReserveN]
      rw [if_pos hb]
    refine ⟨by rw [hr], by rw [hr], ?_, ?_⟩ <;>
      simp [TokenBucketLimiter.WaitNSync, hr, Reservation.notOk]
  · intro lb t n h
    have hr : lb.ReserveN t n = ((lb.leak t).map fun s => (Reservation.notOk, s)) := by
      unfold LeakyBucketLimiter.ReserveN
      cases hk : lb.leak t with
      | none => rfl
      | some s =>
        simp only [Option.map_some']
        rw [if_pos (by rw [(lbLeak_preserves hk).2]; exact h)]
    refine ⟨hr, ?_⟩
    unfold LeakyBucketLimiter.WaitNSync
    rw [hr]
    cases lb.leak t with
    | none => rfl
    | some s => simp [Reservation.notOk]
  · intro sw t n h
    have h1 : (sw.cleanup t).maxCount < n := by rw [swCleanup_maxCount]; exact h
    have hd : ¬(((sw.cleanup t).timestamps.length : Int) + n ≤ (sw.cleanup t).maxCount) := by
      have := Int.natCast_nonneg (sw.cleanup t).timestamps.length
      omega
    have ha : sw.AllowN t n = (false, sw.cleanup t) := by
      simp only [SlidingWindowLimiter.AllowN]
      rw [if_neg hd]
    have hw : sw.WaitNSync t n = (WaitOutcome.err, sw.cleanup t) := by
      simp only [SlidingWindowLimiter.WaitNSync]
      rw [if_pos h1]
    refine ⟨?_, ?_, by rw [hw], by rw [hw]⟩ <;>
      simp [SlidingWindowLimiter.ReserveN, ha]
  · intro fw t n h0 h
    have h1 : (fw.resetIfNeeded t).maxCount < n := by rw [fwResetIfNeeded_maxCount]; exact h
    have hd : ¬((fw.resetIfNeeded t).currentCount + n ≤ (fw.resetIfNeeded t).maxCount) := by
      have := fwResetIfNeeded_count_nonneg t h0
      rw [fwResetIfNeeded_maxCount] at h1 ⊢
      omega
    have ha : fw.AllowN t n = (false, fw.resetIfNeeded t) := by
      simp only [FixedWindowLimiter.AllowN]
      rw [if_neg hd]
    have hw : fw.WaitNSync t n = (WaitOutcome.err, fw.resetIfNeeded t) := by
      simp only [FixedWindowLimiter.WaitNSync]
      rw [if_pos h1]
    refine ⟨?_, ?_, by rw [hw], by rw [hw]⟩ <;>
      simp [FixedWindowLimiter.ReserveN, ha]

/-- Witness for `c5_amended` at concrete over-capacity requests. -/
theorem c5_amended_witness :
    ((NewTokenBucket 1 1 0).ReserveN 0 2).1 = Reservation.notOk ∧
    ((NewLeakyBucket 1 1 0).ReserveN 0 2) =
      (((NewLeakyBucket 1 1 0).leak 0).map fun s => (Reservation.notOk, s)) ∧
    ((NewSlidingWindow 1 1).ReserveN 0 2).1 = Reservation.notOk ∧
    ((NewFixedWindow 1 1 0).ReserveN 0 2).1 = Reservation.notOk :=
  ⟨(c5_amended.1 (NewTokenBucket 1 1 0) 0 2 (by decide)).1,
   (c5_amended.2.1 (NewLeakyBucket 1 1 0) 0 2 (by decide)).1,
   (c5_amended.2.2.1 (NewSlidingWindow 1 1) 0 2 (by decide)).1,
   (c5_amended.2.2.2 (NewFixedWindow 1 1 0) 0 2 (by decide) (by decide)).1⟩

/-! ### Rate-zero, same-timestamp runs (claim C1) -/

/-- With rate 0, `advance` only moves `lastUpdated`: the token count is
unchanged (no replenishment). -/
theorem tbAdvance_rate0 (B : Int) (q : ℚ) (lu t : Int) (hq : q ≤ (B : ℚ)) :
    (TokenBucketLimiter.mk 0 B q lu).advance t = ⟨0, B, q, t⟩ := by
  unfold TokenBucketLimiter.advance
  rw [if_neg (ne_maxFloat64_of_nonpos le_rfl)]
  simp [min_eq_left hq]

/-- A single rate-0 `AllowN(t, 1)` behaves as a pure counter decrement. -/
theorem tbAllowN_one_rate0 (c : ℕ) (B : Int) (lu t : Int) (hc : (c : ℚ) ≤ (B : ℚ)) :
    (TokenBucketLimiter.mk 0 B (c : ℚ) lu).AllowN t 1 =
      if 1 ≤ c then (true, ⟨0, B, ((c - 1 : ℕ) : ℚ), t⟩)
      else (false, ⟨0, B, (c : ℚ), t⟩) := by
  unfold TokenBucketLimiter.AllowN
  rw [tbAdvance_rate0 B (c : ℚ) lu t hc]
  dsimp only
  by_cases h1 : 1 ≤ c
  · rw [if_pos h1, if_pos (by exact_mod_cast h1)]
    simp [Nat.cast_sub h1]
  · rw [if_neg h1, if_neg (by exact_mod_cast h1)]

/-- A rate-0 token bucket with `c` whole tokens admits exactly the next
`c` unit calls at a fixed timestamp and denies the rest. -/
theorem tbRunAllows_rate0 (k : ℕ) :
    ∀ (c : ℕ) (q : ℚ) (B : Int) (lu t : Int), q = (c : ℚ) → (c : ℚ) ≤ (B : ℚ) →
      TokenBucketLimiter.runAllows ⟨0, B, q, lu⟩ t k =
        List.replicate (min k c) true ++ List.replicate (k - min k c) false := by
  induction k with
  | zero => intro c q B lu t hq hc; simp [TokenBucketLimiter.runAllows]
  | succ k ih =>
    intro c q B lu t hq hc
    subst hq
    unfold TokenBucketLimiter.runAllows
    rw [tbAllowN_one_rate0 c B lu t hc]
    by_cases h1 : 1 ≤ c
    · rw [if_pos h1]
      simp only
      rw [ih (c - 1) ((c - 1 : ℕ) : ℚ) B t t rfl
        (le_trans (by exact_mod_cast Nat.sub_le c 1) hc)]
      have hm : min (k + 1) c = min k (c - 1) + 1 := by omega
      rw [hm]
      have hs : (k + 1) - (min k (c - 1) + 1) = k - min k (c - 1) := by omega
      rw [hs, List.replicate_succ, List.cons_append]
    · rw [if_neg h1]
      simp only
      rw [ih c (c : ℚ) B t t rfl hc]
      have hc0 : c = 0 := by omega
      subst hc0
      simp [List.replicate_succ]

/-- With rate 0, `leak` drains nothing: it only moves `lastLeakTime` (and
not even that when the queue is empty). -/
theorem lbLeak_rate0 (B : Int) (q : List Int) (ll t : Int) :
    (LeakyBucketLimiter.mk 0 B q ll).leak t =
      some (if q.length = 0 then ⟨0, B, q, ll⟩ else ⟨0, B, q, t⟩) := by
  by_cases h0 : q.length = 0
  · unfold LeakyBucketLimiter.leak
    rw [if_pos (Or.inr h0), if_pos h0]
  · have hlc : (LeakyBucketLimiter.mk 0 B q ll).leakCount t = 0 := by
      unfold LeakyBucketLimiter.leakCount
      dsimp only
      rw [zero_mul, goTrunc_zero, if_neg (by omega)]
    unfold LeakyBucketLimiter.leak
    dsimp only
    rw [if_neg (not_or.mpr ⟨ne_maxFloat64_of_nonpos le_rfl, h0⟩), hlc,
      if_neg (by omega), if_neg h0]
    simp

/-- A single rate-0 `AllowN(t, 1)` on a queue of `j` copies of `t` behaves
as a pure counter increment bounded by the capacity `j + c`. -/
theorem lbAllowN_one_rate0 (j c : ℕ) (B : Int) (ll t : Int)
    (hB : B = (j : Int) + (c : Int)) :
    (LeakyBucketLimiter.mk 0 B (List.replicate j t) ll).AllowN t 1 =
      some (if 1 ≤ c then
              (true, ⟨0, B, List.replicate (j + 1) t, if j = 0 then ll else t⟩)
            else (false, ⟨0, B, List.replicate j t, if j = 0 then ll else t⟩)) := by
  unfold LeakyBucketLimiter.AllowN
  rw [lbLeak_rate0, List.length_replicate, Option.map_some']
  have hcond : ((List.replicate j t).length : Int) + 1 ≤ B ↔ 1 ≤ c := by
    rw [List.length_replicate, hB]
    omega
  by_cases hj : j = 0
  · subst hj
    rw [if_pos rfl, if_pos rfl]
    by_cases h1 : 1 ≤ c
    · rw [if_pos (hcond.mpr h1), if_pos h1]
      simp [List.replicate_succ']
    · rw [if_neg (fun hh => h1 (hcond.mp hh)), if_neg h1]
  · rw [if_neg hj, if_neg hj]
    by_cases h1 : 1 ≤ c
    · rw [if_pos (hcond.mpr h1), if_pos h1]
      simp [List.replicate_succ']
    · rw [if_neg (fun hh => h1 (hcond.mp hh)), if_neg h1]

/-- A rate-0 leaky bucket holding `j` queued units out of capacity `j + c`
admits exactly the next `c` unit calls at a fixed timestamp, denies the
rest, and never panics. -/
theorem lbRunAllows_rate0 (k : ℕ) :
    ∀ (j c : ℕ) (B : Int) (ll t : Int), B = (j : Int) + (c : Int) →
      (LeakyBucketLimiter.mk 0 B (List.replicate j t) ll).runAllows t k =
        some (List.replicate (min k c) true ++ List.replicate (k - min k c) false) := by
  induction k with
  | zero => intro j c B ll t hB; simp [LeakyBucketLimiter.runAllows]
  | succ k ih =>
    intro j c B ll t hB
    unfold LeakyBucketLimiter.runAllows
    rw [lbAllowN_one_rate0 j c B ll t hB, Option.some_bind]
    by_cases h1 : 1 ≤ c
    · rw [if_pos h1]
      simp only
      rw [ih (j + 1) (c - 1) B (if j = 0 then ll else t) t (by omega), Option.map_some']
      have hm : min (k + 1) c = min k (c - 1) + 1 := by omega
      rw [hm]
      have hs : (k + 1) - (min k (c - 1) + 1) = k - min k (c - 1) := by omega
      rw [hs, List.replicate_succ, List.cons_append]
    · rw [if_neg h1]
      simp only
      rw [ih j c B (if j = 0 then ll else t) t hB, Option.map_some']
      have hc0 : c = 0 := by omega
      subst hc0
      simp [List.replicate_succ]

/-- With rate 0 the window computation falls back to one second. -/
theorem windowFor_rate0 (m : Int) : windowFor 0 m = nsPerSecond := by
  unfold windowFor
  rw [if_neg (lt_irrefl 0)]

/-- `cleanup` at the very timestamp carried by every queue entry removes
nothing (the 1-second fallback window is positive). -/
theorem swCleanup_replicate (m : Int) (j : ℕ) (t : Int) :
    (SlidingWindowLimiter.mk 0 m nsPerSecond (List.replicate j t)).cleanup t =
      ⟨0, m, nsPerSecond, List.replicate j t⟩ := by
  unfold SlidingWindowLimiter.cleanup
  congr 1
  refine dropWhile_replicate_of_neg _ t ?_ j
  simp only [decide_eq_false_iff_not, not_lt]
  show t - nsPerSecond ≤ t
  exact sub_le_self t (by norm_num [nsPerSecond])

/-- A single rate-0 same-timestamp `AllowN(t, 1)` on a sliding window
holding `j` entries out of `j + c` behaves as a pure counter increment. -/
theorem swAllowN_one_rate0 (j c : ℕ) (m : Int) (t : Int)
    (hm : m = (j : Int) + (c : Int)) :
    (SlidingWindowLimiter.mk 0 m nsPerSecond (List.replicate j t)).AllowN t 1 =
      if 1 ≤ c then (true, ⟨0, m, nsPerSecond, List.replicate (j + 1) t⟩)
      else (false, ⟨0, m, nsPerSecond, List.replicate j t⟩) := by
  unfold SlidingWindowLimiter.AllowN
  rw [swCleanup_replicate]
  have hcond : ((List.replicate j t).length : Int) + 1 ≤ m ↔ 1 ≤ c := by
    rw [List.length_replicate, hm]
    omega
  by_cases h1 : 1 ≤ c
  · rw [if_pos (hcond.mpr h1), if_pos h1]
    simp [List.replicate_succ']
  · rw [if_neg (fun hh => h1 (hcond.mp hh)), if_neg h1]

/-- A rate-0 sliding window holding `j` same-timestamp entries out of
`j + c` admits exactly the next `c` unit calls at that timestamp. -/
theorem swRunAllows_rate0 (k : ℕ) :
    ∀ (j c : ℕ) (m : Int) (t : Int), m = (j : Int) + (c : Int) →
      (SlidingWindowLimiter.mk 0 m nsPerSecond (List.replicate j t)).runAllows t k =
        List.replicate (min k c) true ++ List.replicate (k - min k c) false := by
  induction k with
  | zero => intro j c m t hm; simp [SlidingWindowLimiter.runAllows]
  | succ k ih =>
    intro j c m t hm
    unfold SlidingWindowLimiter.runAllows
    rw [swAllowN_one_rate0 j c m t hm]
    by_cases h1 : 1 ≤ c
    · rw [if_pos h1]
      simp only
      rw [ih (j + 1) (c - 1) m t (by omega)]
      have hmm : min (k + 1) c = min k (c - 1) + 1 := by omega
      rw [hmm]
      have hs : (k + 1) - (min k (c - 1) + 1) = k - min k (c - 1) := by omega
      rw [hs, List.replicate_succ, List.cons_append]
    · rw [if_neg h1]
      simp only
      rw [ih j c m t hm]
      have hc0 : c = 0 := by omega
      subst hc0
      simp [List.replicate_succ]

/-- When no rollover fires, a fixed-window `AllowN(t, 1)` behaves as a
pure counter increment. -/
theorem fwAllowN_one_counter (j c : ℕ) (L : ℚ) (m : Int) (w : Int) (ws t : Int)
    (hm : m = (j : Int) + (c : Int)) (hno : t - ws < w) :
    (FixedWindowLimiter.mk L m w (j : Int) ws).AllowN t 1 =
      if 1 ≤ c then (true, ⟨L, m, w, (j : Int) + 1, ws⟩)
      else (false, ⟨L, m, w, (j : Int), ws⟩) := by
  unfold FixedWindowLimiter.AllowN FixedWindowLimiter.resetIfNeeded
  dsimp only
  rw [if_neg (show ¬(w ≤ t - ws) by omega)]
  have hcond : (j : Int) + 1 ≤ m ↔ 1 ≤ c := by omega
  by_cases h1 : 1 ≤ c
  · rw [if_pos (hcond.mpr h1), if_pos h1]
  · rw [if_neg (fun hh => h1 (hcond.mp hh)), if_neg h1]

/-- A fixed window inside its current window (no rollover at `t`) with `j`
units counted out of `j + c` admits exactly the next `c` unit calls at `t`. -/
theorem fwRunAllows_counter (k : ℕ) :
    ∀ (j c : ℕ) (cnt m : Int) (L : ℚ) (w : Int) (ws t : Int),
      cnt = (j : Int) → m = (j : Int) + (c : Int) → t - ws < w →
      (FixedWindowLimiter.mk L m w cnt ws).runAllows t k =
        List.replicate (min k c) true ++ List.replicate (k - min k c) false := by
  induction k with
  | zero => intro j c cnt m L w ws t hcnt hm hno; simp [FixedWindowLimiter.runAllows]
  | succ k ih =>
    intro j c cnt m L w ws t hcnt hm hno
    subst hcnt
    unfold FixedWindowLimiter.runAllows
    rw [fwAllowN_one_counter j c L m w ws t hm hno]
    by_cases h1 : 1 ≤ c
    · rw [if_pos h1]
      simp only
      rw [show (j : Int) + 1 = ((j + 1 : ℕ) : Int) by push_cast; ring]
      rw [ih (j + 1) (c - 1) ((j + 1 : ℕ) : Int) m L w ws t rfl (by omega) hno]
      have hmm : min (k + 1) c = min k (c - 1) + 1 := by omega
      rw [hmm]
      have hs : (k + 1) - (min k (c - 1) + 1) = k - min k (c - 1) := by omega
      rw [hs, List.replicate_succ, List.cons_append]
    · rw [if_neg h1]
      simp only
      rw [ih j c ((j : ℕ) : Int) m L w ws t rfl hm hno]
      have hc0 : c = 0 := by omega
      subst hc0
      simp [List.replicate_succ]

/-- Running the allows after a pre-reset is the same as running them
directly: the first call performs the reset itself. -/
theorem fwRunAllows_reset (fw : FixedWindowLimiter) (t : Int) (k : ℕ) :
    (fw.resetIfNeeded t).runAllows t k = fw.runAllows t k := by
  cases k with
  | zero => rfl
  | succ k =>
    unfold FixedWindowLimiter.runAllows
    rw [fwAllowN_reset]

/-- The shape of a maximal burst run: `B` admits then one denial. -/
theorem runShape (B : ℕ) :
    List.replicate (min (B + 1) B) true ++
      List.replicate ((B + 1) - min (B + 1) B) false =
    List.replicate B true ++ [false] := by
  have h1 : min (B + 1) B = B := by omega
  rw [h1]
  have h2 : B + 1 - B = 1 := by omega
  rw [h2, List.replicate_one]

/-- Claim C1 (amended): for every algorithm and burst `B ≥ 0`, on a freshly
constructed limiter with rate 0 whose calls all carry one timestamp `t`,
exactly the first `B` consecutive `Allow` calls succeed and the `(B+1)`-th
fails (for the leaky bucket: without panicking). The original claim's two
separate conditions fail — rate 0 alone, or same timestamps alone, is not
enough; see the counterexample. -/
theorem c1_amended :
    ∀ (B : ℕ) (t0 t : Int),
      (NewTokenBucket 0 (B : Int) t0).runAllows t (B + 1) =
        List.replicate B true ++ [false] ∧
      (NewLeakyBucket 0 (B : Int) t0).runAllows t (B + 1) =
        some (List.replicate B true ++ [false]) ∧
      (NewSlidingWindow 0 (B : Int)).runAllows t (B + 1) =
        List.replicate B true ++ [false] ∧
      (NewFixedWindow 0 (B : Int) t0).runAllows t (B + 1) =
        List.replicate B true ++ [false] := by
  intro B t0 t
  have hns : nsPerSecond = 1000000000 := rfl
  refine ⟨?_, ?_, ?_, ?_⟩
  · unfold NewTokenBucket
    rw [tbRunAllows_rate0 (B + 1) B ((B : Int) : ℚ) (B : Int) t0 t
      (by push_cast; ring) (by push_cast; exact le_refl _), runShape]
  · unfold NewLeakyBucket
    have h := lbRunAllows_rate0 (B + 1) 0 B (B : Int) t0 t (by push_cast; ring)
    rw [List.replicate_zero] at h
    rw [h, runShape]
  · unfold NewSlidingWindow
    rw [windowFor_rate0]
    have h := swRunAllows_rate0 (B + 1) 0 B (B : Int) t (by push_cast; ring)
    rw [List.replicate_zero] at h
    rw [h, runShape]
  · unfold NewFixedWindow
    rw [windowFor_rate0,
      ← fwRunAllows_reset ⟨0, (B : Int), nsPerSecond, 0, t0⟩ t (B + 1)]
    unfold FixedWindowLimiter.resetIfNeeded
    by_cases hb : nsPerSecond ≤ t - t0
    · rw [if_pos hb]
      dsimp only
      unfold goTruncate
      rw [if_neg (show ¬(nsPerSecond ≤ (0 : Int)) by norm_num [nsPerSecond])]
      rw [fwRunAllows_counter (B + 1) 0 B 0 (B : Int) 0 nsPerSecond
        (t - t % nsPerSecond) t (by norm_num) (by push_cast; ring)
        (by
          have h2 := Int.emod_lt_of_pos t
            (show (0 : Int) < nsPerSecond by norm_num [nsPerSecond])
          omega),
        runShape]
    · rw [if_neg hb]
      rw [fwRunAllows_counter (B + 1) 0 B 0 (B : Int) 0 nsPerSecond t0 t
        (by norm_num) (by push_cast; ring) (by omega), runShape]

/-! ### Rate-zero admission traces (claim C3) -/

/-- With rate 0, `advance` on an arbitrary state caps the token count at
the burst and moves `lastUpdated`, adding nothing. -/
theorem tbAdvance_rate0_any (tb : TokenBucketLimiter) (t : Int) (h0 : tb.limit = 0) :
    tb.advance t = ⟨0, tb.burst, min tb.tokens (tb.burst : ℚ), t⟩ := by
  obtain ⟨L, B, tok, lu⟩ := tb
  simp only at h0
  subst h0
  unfold TokenBucketLimiter.advance
  rw [if_neg (ne_maxFloat64_of_nonpos le_rfl)]
  simp

/-- One admission-side step on a rate-0 token bucket preserves the
accounting invariant `admitted + max(tokens, 0) ≤ burst`. -/
theorem tbApplyAdm_step (s : TokenBucketLimiter × ℕ) (op : AdmOp)
    (h0 : s.1.limit = 0)
    (hinv : (s.2 : ℚ) + max s.1.tokens 0 ≤ (s.1.burst : ℚ)) :
    (TokenBucketLimiter.applyAdm s op).1.limit = 0 ∧
    (TokenBucketLimiter.applyAdm s op).1.burst = s.1.burst ∧
    ((TokenBucketLimiter.applyAdm s op).2 : ℚ) +
      max (TokenBucketLimiter.applyAdm s op).1.tokens 0 ≤
      ((TokenBucketLimiter.applyAdm s op).1.burst : ℚ) := by
  obtain ⟨tb, a⟩ := s
  have hmin : min tb.tokens (tb.burst : ℚ) ≤ max tb.tokens 0 :=
    le_trans (min_le_left _ _) (le_max_left _ _)
  cases op with
  | allowN t n =>
    simp only [TokenBucketLimiter.applyAdm, TokenBucketLimiter.AllowN]
    rw [tbAdvance_rate0_any tb t h0]
    by_cases hc : ((n : Int) : ℚ) ≤ min tb.tokens (tb.burst : ℚ)
    · rw [if_pos hc]
      refine ⟨rfl, rfl, ?_⟩
      have hn0 : (0 : ℚ) ≤ ((n : Int) : ℚ) := by positivity
      have hmax : max (min tb.tokens (tb.burst : ℚ) - ((n : Int) : ℚ)) 0 =
          min tb.tokens (tb.burst : ℚ) - ((n : Int) : ℚ) :=
        max_eq_left (by linarith)
      rw [if_pos rfl, hmax]
      push_cast
      simp only at hinv ⊢
      linarith
    · rw [if_neg hc]
      refine ⟨rfl, rfl, ?_⟩
      have hle : max (min tb.tokens (tb.burst : ℚ)) 0 ≤ max tb.tokens 0 :=
        max_le_max (min_le_left _ _) le_rfl
      rw [if_neg (by simp)]
      simp only at hinv ⊢
      linarith
  | reserveN t n =>
    simp only [TokenBucketLimiter.applyAdm, TokenBucketLimiter.ReserveN]
    rw [tbAdvance_rate0_any tb t h0]
    by_cases hb : tb.burst < (n : Int)
    · rw [if_pos hb]
      refine ⟨rfl, rfl, ?_⟩
      have : max (min tb.tokens (tb.burst : ℚ)) 0 ≤ max tb.tokens 0 :=
        max_le_max (min_le_left _ _) le_rfl
      simp only at hinv ⊢
      linarith
    · rw [if_neg hb]
      refine ⟨rfl, rfl, ?_⟩
      have hn0 : (0 : ℚ) ≤ ((n : Int) : ℚ) := by positivity
      have : max (min tb.tokens (tb.burst : ℚ) - ((n : Int) : ℚ)) 0 ≤
          max (min tb.tokens (tb.burst : ℚ)) 0 :=
        max_le_max (by linarith) le_rfl
      have h2 : max (min tb.tokens (tb.burst : ℚ)) 0 ≤ max tb.tokens 0 :=
        max_le_max (min_le_left _ _) le_rfl
      simp only at hinv ⊢
      linarith
  | tokensAt t =>
    simp only [TokenBucketLimiter.applyAdm, TokenBucketLimiter.TokensAt]
    rw [tbAdvance_rate0_any tb t h0]
    refine ⟨rfl, rfl, ?_⟩
    have : max (min tb.tokens (tb.burst : ℚ)) 0 ≤ max tb.tokens 0 :=
      max_le_max (min_le_left _ _) le_rfl
    simp only at hinv ⊢
    linarith

/-- The rate-0 token-bucket accounting invariant holds along every
admission-side trace. -/
theorem tbRunAdm_inv (ops : List AdmOp) :
    ∀ (s : TokenBucketLimiter × ℕ), s.1.limit = 0 →
      (s.2 : ℚ) + max s.1.tokens 0 ≤ (s.1.burst : ℚ) →
      (ops.foldl TokenBucketLimiter.applyAdm s).1.limit = 0 ∧
      (ops.foldl TokenBucketLimiter.applyAdm s).1.burst = s.1.burst ∧
      ((ops.foldl TokenBucketLimiter.applyAdm s).2 : ℚ) +
        max (ops.foldl TokenBucketLimiter.applyAdm s).1.tokens 0 ≤
        ((ops.foldl TokenBucketLimiter.applyAdm s).1.burst : ℚ) := by
  induction ops with
  | nil => intro s h0 hinv; exact ⟨h0, rfl, hinv⟩
  | cons op rest ih =>
    intro s h0 hinv
    rw [List.foldl_cons]
    obtain ⟨k0, kb, kinv⟩ := tbApplyAdm_step s op h0 hinv
    obtain ⟨g0, gb, ginv⟩ := ih (TokenBucketLimiter.applyAdm s op) k0 kinv
    exact ⟨g0, gb.trans kb, ginv⟩

/-- With rate 0, `leak` on an arbitrary state drains nothing. -/
theorem lbLeak_rate0_any (lb : LeakyBucketLimiter) (t : Int) (h0 : lb.limit = 0) :
    lb.leak t =
      some (if lb.queue.length = 0 then lb else ⟨0, lb.capacity, lb.queue, t⟩) := by
  obtain ⟨L, C, q, ll⟩ := lb
  simp only at h0
  subst h0
  exact lbLeak_rate0 C q ll t

/-- With rate 0, `leak` keeps the queue and configuration and only
possibly moves `lastLeakTime`. -/
theorem lbLeak_rate0_exists (lb : LeakyBucketLimiter) (t : Int) (h0 : lb.limit = 0) :
    ∃ ll, lb.leak t = some ⟨0, lb.capacity, lb.queue, ll⟩ := by
  rw [lbLeak_rate0_any lb t h0]
  by_cases hz : lb.queue.length = 0
  · refine ⟨lb.lastLeakTime, ?_⟩
    rw [if_pos hz]
    obtain ⟨L, C, q, ll⟩ := lb
    simp only at h0
    subst h0
    rfl
  · exact ⟨t, by rw [if_neg hz]⟩

/-- One admission-side step on a rate-0 leaky bucket succeeds (no panic)
and preserves `admitted ≤ queue length` and `admitted ≤ capacity`. -/
theorem lbApplyAdm_step (p : LeakyBucketLimiter × ℕ) (op : AdmOp)
    (h0 : p.1.limit = 0) (hq : (p.2 : Int) ≤ p.1.queue.length)
    (hc : (p.2 : Int) ≤ p.1.capacity) :
    ∃ r, LeakyBucketLimiter.applyAdm p op = some r ∧
      r.1.limit = 0 ∧ r.1.capacity = p.1.capacity ∧
      (r.2 : Int) ≤ r.1.queue.length ∧ (r.2 : Int) ≤ r.1.capacity := by
  obtain ⟨lb, a⟩ := p
  simp only at h0 hq hc
  cases op with
  | allowN t n =>
    obtain ⟨ll, hleak⟩ := lbLeak_rate0_exists lb t h0
    simp only [LeakyBucketLimiter.applyAdm, LeakyBucketLimiter.AllowN]
    rw [hleak, Option.map_some', Option.map_some']
    by_cases hadm :
        (((⟨0, lb.capacity, lb.queue, ll⟩ : LeakyBucketLimiter).queue.length : Int)) +
          (n : Int) ≤ (⟨0, lb.capacity, lb.queue, ll⟩ : LeakyBucketLimiter).capacity
    · rw [if_pos hadm]
      simp only at hadm
      refine ⟨_, rfl, rfl, rfl, ?_, ?_⟩ <;>
        simp only [List.length_append, List.length_replicate, Int.toNat_natCast] <;>
        rw [if_pos trivial] <;> push_cast <;> omega
    · rw [if_neg hadm]
      rw [if_neg (by simp)]
      exact ⟨_, rfl, rfl, rfl, hq, hc⟩
  | reserveN t n =>
    obtain ⟨ll, hleak⟩ := lbLeak_rate0_exists lb t h0
    simp only [LeakyBucketLimiter.applyAdm, LeakyBucketLimiter.ReserveN]
    rw [hleak, Option.map_some', Option.map_some']
    by_cases hcap :
        (⟨0, lb.capacity, lb.queue, ll⟩ : LeakyBucketLimiter).capacity < (n : Int)
    · rw [if_pos hcap]
      exact ⟨_, rfl, rfl, rfl, hq, hc⟩
    · rw [if_neg hcap]
      refine ⟨_, rfl, rfl, rfl, ?_, hc⟩
      simp only [List.length_append, List.length_replicate, Int.toNat_natCast]
      push_cast
      omega
  | tokensAt t =>
    obtain ⟨ll, hleak⟩ := lbLeak_rate0_exists lb t h0
    simp only [LeakyBucketLimiter.applyAdm, LeakyBucketLimiter.TokensAt]
    rw [hleak, Option.map_some', Option.map_some']
    exact ⟨_, rfl, rfl, rfl, hq, hc⟩

/-- The rate-0 leaky-bucket trace invariant: every admission-side trace
runs to completion (no panic) with `admitted ≤ capacity`. -/
theorem lbRunAdm_inv (ops : List AdmOp) :
    ∀ (p : LeakyBucketLimiter × ℕ), p.1.limit = 0 →
      (p.2 : Int) ≤ p.1.queue.length → (p.2 : Int) ≤ p.1.capacity →
      ∃ r, ops.foldlM LeakyBucketLimiter.applyAdm p = some r ∧
        r.1.limit = 0 ∧ r.1.capacity = p.1.capacity ∧
        (r.2 : Int) ≤ r.1.queue.length ∧ (r.2 : Int) ≤ r.1.capacity := by
  induction ops with
  | nil => intro p h0 hq hc; exact ⟨p, rfl, h0, rfl, hq, hc⟩
  | cons op rest ih =>
    intro p h0 hq hc
    obtain ⟨r1, hr1, h01, hcap1, hq1, hc1⟩ := lbApplyAdm_step p op h0 hq hc
    obtain ⟨r2, hr2, h02, hcap2, hq2, hc2⟩ := ih r1 h01 hq1 hc1
    refine ⟨r2, ?_, h02, hcap2.trans hcap1, hq2, hc2⟩
    simp only [List.foldlM_cons, hr1, Option.bind_eq_bind, Option.some_bind]
    exact hr2

/-- Claim C3 (amended): with rate exactly 0 and no reconfiguration, the
token bucket and the leaky bucket never admit more than the initial burst
`B` cumulatively, across every sequence of `allowN`/`reserveN`/`tokensAt`
operations at arbitrary timestamps (and the leaky bucket never panics at
rate 0). The window engines and negative rates do not satisfy this: see
the counterexample. -/
theorem c3_amended :
    (∀ (B : ℕ) (t0 : Int) (ops : List AdmOp),
       ((NewTokenBucket 0 (B : Int) t0).runAdm ops).2 ≤ B) ∧
    (∀ (B : ℕ) (t0 : Int) (ops : List AdmOp),
       ∃ r, (NewLeakyBucket 0 (B : Int) t0).runAdm ops = some r ∧ r.2 ≤ B) := by
  constructor
  · intro B t0 ops
    have hB0 : (0 : ℚ) ≤ ((B : Int) : ℚ) := by positivity
    obtain ⟨h0, hb, hinv⟩ := tbRunAdm_inv ops (NewTokenBucket 0 (B : Int) t0, 0)
      rfl (by simp only [NewTokenBucket]; rw [max_eq_left hB0]; push_cast; ring_nf; exact le_refl _)
    rw [hb] at hinv
    have ha : ((ops.foldl TokenBucketLimiter.applyAdm
        (NewTokenBucket 0 (B : Int) t0, 0)).2 : ℚ) ≤ ((B : Int) : ℚ) :=
      le_trans (le_add_of_nonneg_right (le_max_right _ _)) hinv
    unfold TokenBucketLimiter.runAdm
    exact_mod_cast ha
  · intro B t0 ops
    obtain ⟨r, hr, h0, hcap, hq, hc⟩ := lbRunAdm_inv ops (NewLeakyBucket 0 (B : Int) t0, 0)
      rfl (by simp [NewLeakyBucket]) (by simp [NewLeakyBucket])
    refine ⟨r, hr, ?_⟩
    rw [hcap] at hc
    simp only [NewLeakyBucket] at hc
    exact_mod_cast hc

/-! ### Bound invariants along contract-operation traces (claim C4) -/

/-- With a nonnegative rate and a forward timestamp, `advance` keeps the
token count within `[0, burst]`. -/
theorem tbAdvance_bounds (tb : TokenBucketLimiter) (t : Int)
    (hl : 0 ≤ tb.limit) (hb : 0 ≤ tb.burst) (h0 : 0 ≤ tb.tokens)
    (hbb : tb.tokens ≤ (tb.burst : ℚ)) (ht : tb.lastUpdated ≤ t) :
    0 ≤ (tb.advance t).tokens ∧ (tb.advance t).tokens ≤ ((tb.advance t).burst : ℚ) ∧
    (tb.advance t).burst = tb.burst ∧ (tb.advance t).limit = tb.limit ∧
    (tb.advance t).lastUpdated = t := by
  simp only [TokenBucketLimiter.advance]
  by_cases hm : tb.limit = maxFloat64
  · rw [if_pos hm]
    refine ⟨?_, le_refl _, rfl, rfl, rfl⟩
    show (0 : ℚ) ≤ (tb.burst : ℚ)
    exact_mod_cast hb
  · rw [if_neg hm]
    have hd : 0 ≤ tb.limit * secondsOf (t - tb.lastUpdated) :=
      mul_nonneg hl (secondsOf_nonneg (by omega))
    refine ⟨le_min (by linarith) (by exact_mod_cast hb), min_le_right _ _, rfl, rfl, rfl⟩

/-- One contract operation (no reserve) on a token bucket with nonnegative
rate and burst, at a timestamp not earlier than the last update, keeps the
configuration nonnegative and the token count within `[0, burst]`. -/
theorem tbApplyCfg_step (tb : TokenBucketLimiter) (op : CfgOp)
    (hl : 0 ≤ tb.limit) (hb : 0 ≤ tb.burst) (h0 : 0 ≤ tb.tokens)
    (hbb : tb.tokens ≤ (tb.burst : ℚ)) (ht : tb.lastUpdated ≤ op.time)
    (hrop : ∀ t r, op = CfgOp.setLimitAt t r → 0 ≤ r) :
    0 ≤ (tb.applyCfg op).limit ∧ 0 ≤ (tb.applyCfg op).burst ∧
    0 ≤ (tb.applyCfg op).tokens ∧
    (tb.applyCfg op).tokens ≤ ((tb.applyCfg op).burst : ℚ) ∧
    (tb.applyCfg op).lastUpdated = op.time := by
  cases op with
  | allowN t n =>
    simp only [CfgOp.time] at ht
    obtain ⟨g0, gbb, gburst, glim, glast⟩ := tbAdvance_bounds tb t hl hb h0 hbb ht
    simp only [TokenBucketLimiter.applyCfg, TokenBucketLimiter.AllowN]
    by_cases hc : (((n : ℕ) : Int) : ℚ) ≤ (tb.advance t).tokens
    · rw [if_pos hc]
      have hn0 : (0 : ℚ) ≤ (((n : ℕ) : Int) : ℚ) := by positivity
      exact ⟨glim ▸ hl, gburst ▸ hb, by dsimp only; linarith,
        by dsimp only; rw [gburst] at gbb ⊢; linarith, glast⟩
    · rw [if_neg hc]
      exact ⟨glim ▸ hl, gburst ▸ hb, g0, gbb, glast⟩
  | tokensAt t =>
    simp only [CfgOp.time] at ht
    obtain ⟨g0, gbb, gburst, glim, glast⟩ := tbAdvance_bounds tb t hl hb h0 hbb ht
    simp only [TokenBucketLimiter.applyCfg, TokenBucketLimiter.TokensAt]
    exact ⟨glim ▸ hl, gburst ▸ hb, g0, gbb, glast⟩
  | setLimitAt t r =>
    simp only [CfgOp.time] at ht
    obtain ⟨g0, gbb, gburst, glim, glast⟩ := tbAdvance_bounds tb t hl hb h0 hbb ht
    simp only [TokenBucketLimiter.applyCfg, TokenBucketLimiter.SetLimitAt]
    exact ⟨hrop t r rfl, gburst ▸ hb, g0, gbb, glast⟩
  | setBurstAt t b =>
    simp only [CfgOp.time] at ht
    obtain ⟨g0, gbb, gburst, glim, glast⟩ := tbAdvance_bounds tb t hl hb h0 hbb ht
    simp only [TokenBucketLimiter.applyCfg, TokenBucketLimiter.SetBurstAt]
    by_cases hcl : (((b : ℕ) : Int) : ℚ) < (tb.advance t).tokens
    · rw [if_pos hcl]
      exact ⟨glim ▸ hl, by positivity, by positivity, le_refl _, glast⟩
    · rw [if_neg hcl]
      exact ⟨glim ▸ hl, by positivity, g0, by dsimp only; linarith, glast⟩

/-- The token-bucket bound invariant holds along every reserve-free trace
with nondecreasing timestamps and nonnegative rates. -/
theorem tbRunCfg_inv (ops : List CfgOp) :
    ∀ (tb : TokenBucketLimiter) (tcur : Int),
      tb.lastUpdated ≤ tcur → cfgMono tcur ops = true → cfgRatesOK ops = true →
      0 ≤ tb.limit → 0 ≤ tb.burst → 0 ≤ tb.tokens → tb.tokens ≤ (tb.burst : ℚ) →
      0 ≤ (tb.runCfg ops).tokens ∧
      (tb.runCfg ops).tokens ≤ ((tb.runCfg ops).burst : ℚ) := by
  induction ops with
  | nil => intro tb tcur _ _ _ _ _ h0 hbb; exact ⟨h0, hbb⟩
  | cons op rest ih =>
    intro tb tcur hle hmono hrates hl hb h0 hbb
    simp only [cfgMono, Bool.and_eq_true, decide_eq_true_eq] at hmono
    obtain ⟨hto, hmono'⟩ := hmono
    have hrop : ∀ t r, op = CfgOp.setLimitAt t r → 0 ≤ r := by
      intro t r he
      subst he
      simp only [cfgRatesOK, Bool.and_eq_true, decide_eq_true_eq] at hrates
      exact hrates.1
    have hrates' : cfgRatesOK rest = true := by
      cases op <;> simp only [cfgRatesOK, Bool.and_eq_true] at hrates <;>
        first
          | exact hrates
          | exact hrates.2
    obtain ⟨k1, k2, k3, k4, k5⟩ :=
      tbApplyCfg_step tb op hl hb h0 hbb (le_trans hle hto) hrop
    have := ih (tb.applyCfg op) op.time (le_of_eq k5) hmono' hrates' k1 k2 k3 k4
    unfold TokenBucketLimiter.runCfg at this ⊢
    rw [List.foldl_cons]
    exact this

/-- With a nonnegative rate and a forward timestamp, `leak` succeeds and
only shrinks the queue. -/
theorem lbLeak_bounds (lb : LeakyBucketLimiter) (t : Int)
    (hl : 0 ≤ lb.limit) (ht : lb.lastLeakTime ≤ t) :
    ∃ s, lb.leak t = some s ∧ s.limit = lb.limit ∧ s.capacity = lb.capacity ∧
      s.queue.length ≤ lb.queue.length ∧ s.lastLeakTime ≤ t := by
  unfold LeakyBucketLimiter.leak
  by_cases hg : lb.limit = maxFloat64 ∨ lb.queue.length = 0
  · rw [if_pos hg]
    exact ⟨lb, rfl, rfl, rfl, le_refl _, ht⟩
  · rw [if_neg hg]
    have hlc : 0 ≤ lb.leakCount t := by
      unfold LeakyBucketLimiter.leakCount
      split
      · exact Int.natCast_nonneg _
      · exact goTrunc_nonneg (mul_nonneg hl (secondsOf_nonneg (by omega)))
    rw [if_neg (by omega)]
    refine ⟨_, rfl, rfl, rfl, ?_, le_refl t⟩
    simp [List.length_drop]

/-- One contract operation (no reserve) on a leaky bucket with nonnegative
rates, at a timestamp not earlier than the last leak, succeeds and keeps
the queue within the (current) capacity. -/
theorem lbApplyCfg_step (lb : LeakyBucketLimiter) (op : CfgOp)
    (hl : 0 ≤ lb.limit) (hcap : (lb.queue.length : Int) ≤ lb.capacity)
    (ht : lb.lastLeakTime ≤ op.time)
    (hrop : ∀ t r, op = CfgOp.setLimitAt t r → 0 ≤ r) :
    ∃ s, lb.applyCfg op = some s ∧ 0 ≤ s.limit ∧
      (s.queue.length : Int) ≤ s.capacity ∧ s.lastLeakTime ≤ op.time := by
  cases op with
  | allowN t n =>
    simp only [CfgOp.time] at ht ⊢
    obtain ⟨s, hs, hsl, hsc, hsq, hst⟩ := lbLeak_bounds lb t hl ht
    simp only [LeakyBucketLimiter.applyCfg, LeakyBucketLimiter.AllowN]
    rw [hs, Option.map_some', Option.map_some']
    by_cases hadm : (s.queue.length : Int) + ((n : ℕ) : Int) ≤ s.capacity
    · rw [if_pos hadm]
      refine ⟨_, rfl, hsl ▸ hl, ?_, hst⟩
      simp only [List.length_append, List.length_replicate, Int.toNat_natCast]
      push_cast
      push_cast at hadm
      omega
    · rw [if_neg hadm]
      exact ⟨s, rfl, hsl ▸ hl, by omega, hst⟩
  | tokensAt t =>
    simp only [CfgOp.time] at ht ⊢
    obtain ⟨s, hs, hsl, hsc, hsq, hst⟩ := lbLeak_bounds lb t hl ht
    simp only [LeakyBucketLimiter.applyCfg, LeakyBucketLimiter.TokensAt]
    rw [hs, Option.map_some', Option.map_some']
    exact ⟨s, rfl, hsl ▸ hl, by omega, hst⟩
  | setLimitAt t r =>
    simp only [CfgOp.time] at ht ⊢
    obtain ⟨s, hs, hsl, hsc, hsq, hst⟩ := lbLeak_bounds lb t hl ht
    simp only [LeakyBucketLimiter.applyCfg, LeakyBucketLimiter.SetLimitAt]
    rw [hs, Option.map_some']
    exact ⟨_, rfl, hrop t r rfl, by dsimp only; omega, hst⟩
  | setBurstAt t b =>
    simp only [CfgOp.time] at ht ⊢
    obtain ⟨s, hs, hsl, hsc, hsq, hst⟩ := lbLeak_bounds lb t hl ht
    simp only [LeakyBucketLimiter.applyCfg, LeakyBucketLimiter.SetBurstAt]
    rw [hs, Option.some_bind]
    by_cases hlen : ((b : ℕ) : Int) < (s.queue.length : Int)
    · rw [if_pos hlen, if_neg (by omega)]
      refine ⟨_, rfl, hsl ▸ hl, ?_, hst⟩
      simp only [List.length_take]
      push_cast
      omega
    · rw [if_neg hlen]
      exact ⟨_, rfl, hsl ▸ hl, by dsimp only; omega, hst⟩

/-- The leaky-bucket bound invariant holds along every reserve-free trace
with nondecreasing timestamps and nonnegative rates, with no panic. -/
theorem lbRunCfg_inv (ops : List CfgOp) :
    ∀ (lb : LeakyBucketLimiter) (tcur : Int),
      lb.lastLeakTime ≤ tcur → cfgMono tcur ops = true → cfgRatesOK ops = true →
      0 ≤ lb.limit → (lb.queue.length : Int) ≤ lb.capacity →
      ∃ s, lb.runCfg ops = some s ∧ (s.queue.length : Int) ≤ s.capacity := by
  induction ops with
  | nil => intro lb tcur _ _ _ _ hcap; exact ⟨lb, rfl, hcap⟩
  | cons op rest ih =>
    intro lb tcur hle hmono hrates hl hcap
    simp only [cfgMono, Bool.and_eq_true, decide_eq_true_eq] at hmono
    obtain ⟨hto, hmono'⟩ := hmono
    have hrop : ∀ t r, op = CfgOp.setLimitAt t r → 0 ≤ r := by
      intro t r he
      subst he
      simp only [cfgRatesOK, Bool.and_eq_true, decide_eq_true_eq] at hrates
      exact hrates.1
    have hrates' : cfgRatesOK rest = true := by
      cases op <;> simp only [cfgRatesOK, Bool.and_eq_true] at hrates <;>
        first
          | exact hrates
          | exact hrates.2
    obtain ⟨s, hs, hsl, hscap, hst⟩ :=
      lbApplyCfg_step lb op hl hcap (le_trans hle hto) hrop
    obtain ⟨s2, hs2, hcap2⟩ := ih s op.time hst hmono' hrates' hsl hscap
    refine ⟨s2, ?_, hcap2⟩
    unfold LeakyBucketLimiter.runCfg at hs2 ⊢
    rw [List.foldlM_cons, hs, Option.bind_eq_bind, Option.some_bind]
    exact hs2

/-- `cleanup` never lengthens the recorded-timestamp list. -/
theorem swCleanup_len_le (sw : SlidingWindowLimiter) (t : Int) :
    (sw.cleanup t).timestamps.length ≤ sw.timestamps.length :=
  length_dropWhile_le _ _

/-- One contract operation without `setBurstAt` keeps the sliding window's
entry count within the (unchanged) burst. -/
theorem swApplyCfg_step (sw : SlidingWindowLimiter) (op : CfgOp)
    (hnb : ∀ t b, op ≠ CfgOp.setBurstAt t b)
    (hlen : (sw.timestamps.length : Int) ≤ sw.maxCount) :
    ((sw.applyCfg op).timestamps.length : Int) ≤ (sw.applyCfg op).maxCount ∧
    (sw.applyCfg op).maxCount = sw.maxCount := by
  have hclean : ∀ t : Int, ((sw.cleanup t).timestamps.length : Int) ≤ sw.maxCount := by
    intro t
    have := swCleanup_len_le sw t
    omega
  cases op with
  | allowN t n =>
    simp only [SlidingWindowLimiter.applyCfg, SlidingWindowLimiter.AllowN]
    by_cases hadm : ((sw.cleanup t).timestamps.length : Int) + ((n : ℕ) : Int) ≤
        (sw.cleanup t).maxCount
    · rw [if_pos hadm]
      rw [swCleanup_maxCount] at hadm
      refine ⟨?_, rfl⟩
      show ((((sw.cleanup t).timestamps ++
        List.replicate ((n : ℕ) : Int).toNat t).length : Int)) ≤ sw.maxCount
      simp only [List.length_append, List.length_replicate, Int.toNat_natCast]
      push_cast at hadm ⊢
      omega
    · rw [if_neg hadm]
      exact ⟨hclean t, rfl⟩
  | tokensAt t =>
    simp only [SlidingWindowLimiter.applyCfg, SlidingWindowLimiter.TokensAt]
    exact ⟨hclean t, rfl⟩
  | setLimitAt t r =>
    simp only [SlidingWindowLimiter.applyCfg, SlidingWindowLimiter.SetLimitAt]
    by_cases hr : 0 < r
    · rw [if_pos hr]
      exact ⟨hclean t, rfl⟩
    · rw [if_neg hr]
      exact ⟨hclean t, rfl⟩
  | setBurstAt t b => exact absurd rfl (hnb t b)

/-- Whether the fixed-window rollover fires or not, with a nonnegative
burst the counter stays within `[0, maxCount]` after `resetIfNeeded`. -/
theorem fwResetIfNeeded_bounds (fw : FixedWindowLimiter) (t : Int)
    (h0 : 0 ≤ fw.currentCount) (hc : fw.currentCount ≤ fw.maxCount)
    (hm : 0 ≤ fw.maxCount) :
    0 ≤ (fw.resetIfNeeded t).currentCount ∧
    (fw.resetIfNeeded t).currentCount ≤ (fw.resetIfNeeded t).maxCount ∧
    (fw.resetIfNeeded t).maxCount = fw.maxCount := by
  unfold FixedWindowLimiter.resetIfNeeded
  split
  · exact ⟨le_refl 0, hm, rfl⟩
  · exact ⟨h0, hc, rfl⟩

/-- One contract operation without `setBurstAt` keeps the fixed window's
counter within `[0, maxCount]`. -/
theorem fwApplyCfg_step (fw : FixedWindowLimiter) (op : CfgOp)
    (hnb : ∀ t b, op ≠ CfgOp.setBurstAt t b)
    (h0 : 0 ≤ fw.currentCount) (hc : fw.currentCount ≤ fw.maxCount)
    (hm : 0 ≤ fw.maxCount) :
    0 ≤ (fw.applyCfg op).currentCount ∧
    (fw.applyCfg op).currentCount ≤ (fw.applyCfg op).maxCount ∧
    (fw.applyCfg op).maxCount = fw.maxCount := by
  cases op with
  | allowN t n =>
    obtain ⟨g0, gc, gm⟩ := fwResetIfNeeded_bounds fw t h0 hc hm
    simp only [FixedWindowLimiter.applyCfg, FixedWindowLimiter.AllowN]
    by_cases hadm : (fw.resetIfNeeded t).currentCount + ((n : ℕ) : Int) ≤
        (fw.resetIfNeeded t).maxCount
    · rw [if_pos hadm]
      refine ⟨?_, ?_, gm⟩ <;> dsimp only <;> [skip; skip] <;>
        first
          | (have hn : (0 : Int) ≤ ((n : ℕ) : Int) := Int.natCast_nonneg _; omega)
    · rw [if_neg hadm]
      exact ⟨g0, gc, gm⟩
  | tokensAt t =>
    obtain ⟨g0, gc, gm⟩ := fwResetIfNeeded_bounds fw t h0 hc hm
    simp only [FixedWindowLimiter.applyCfg, FixedWindowLimiter.TokensAt]
    exact ⟨g0, gc, gm⟩
  | setLimitAt t r =>
    obtain ⟨g0, gc, gm⟩ := fwResetIfNeeded_bounds fw t h0 hc hm
    simp only [FixedWindowLimiter.applyCfg, FixedWindowLimiter.SetLimitAt]
    by_cases hr : 0 < r
    · rw [if_pos hr]
      exact ⟨g0, gc, gm⟩
    · rw [if_neg hr]
      exact ⟨g0, gc, gm⟩
  | setBurstAt t b => exact absurd rfl (hnb t b)

/-- The sliding-window bound invariant holds along every reserve-free,
`setBurst`-free trace. -/
theorem swRunCfg_inv (ops : List CfgOp) :
    ∀ (sw : SlidingWindowLimiter), cfgNoSetBurst ops = true →
      (sw.timestamps.length : Int) ≤ sw.maxCount →
      ((sw.runCfg ops).timestamps.length : Int) ≤ (sw.runCfg ops).maxCount := by
  induction ops with
  | nil => intro sw _ hlen; exact hlen
  | cons op rest ih =>
    intro sw hnb hlen
    have hnb1 : ∀ t b, op ≠ CfgOp.setBurstAt t b := by
      intro t b he
      subst he
      simp only [cfgNoSetBurst] at hnb
      exact Bool.false_ne_true hnb
    have hnb' : cfgNoSetBurst rest = true := by
      cases op <;> simp only [cfgNoSetBurst] at hnb ⊢ <;>
        first
          | exact hnb
          | exact absurd hnb Bool.false_ne_true
    obtain ⟨k1, _⟩ := swApplyCfg_step sw op hnb1 hlen
    have := ih (sw.applyCfg op) hnb' k1
    unfold SlidingWindowLimiter.runCfg at this ⊢
    rw [List.foldl_cons]
    exact this

/-- The fixed-window bound invariant holds along every reserve-free,
`setBurst`-free trace. -/
theorem fwRunCfg_inv (ops : List CfgOp) :
    ∀ (fw : FixedWindowLimiter), cfgNoSetBurst ops = true →
      0 ≤ fw.currentCount → fw.currentCount ≤ fw.maxCount → 0 ≤ fw.maxCount →
      0 ≤ (fw.runCfg ops).currentCount ∧
      (fw.runCfg ops).currentCount ≤ (fw.runCfg ops).maxCount := by
  induction ops with
  | nil => intro fw _ h0 hc _; exact ⟨h0, hc⟩
  | cons op rest ih =>
    intro fw hnb h0 hc hm
    have hnb1 : ∀ t b, op ≠ CfgOp.setBurstAt t b := by
      intro t b he
      subst he
      simp only [cfgNoSetBurst] at hnb
      exact Bool.false_ne_true hnb
    have hnb' : cfgNoSetBurst rest = true := by
      cases op <;> simp only [cfgNoSetBurst] at hnb ⊢ <;>
        first
          | exact hnb
          | exact absurd hnb Bool.false_ne_true
    obtain ⟨k0, kc, km⟩ := fwApplyCfg_step fw op hnb1 h0 hc hm
    have := ih (fw.applyCfg op) hnb' k0 kc (km ▸ hm)
    unfold FixedWindowLimiter.runCfg at this ⊢
    rw [List.foldl_cons]
    exact this

/-- Claim C4 (amended): under `allowN`/`tokensAt`/`setLimitAt` operations
with nondecreasing timestamps and nonnegative rates — and, for the token
and leaky buckets, also `setBurstAt` with nonnegative bursts — each
engine's accounting quantity stays between 0 and the current burst (and
the leaky bucket never panics). `reserveN` and the window engines'
`setBurstAt` violate the bounds: see the counterexample. -/
theorem c4_amended :
    (∀ (r : ℚ) (B : ℕ) (t0 : Int) (ops : List CfgOp), 0 ≤ r →
       cfgMono t0 ops = true → cfgRatesOK ops = true →
       0 ≤ ((NewTokenBucket r (B : Int) t0).runCfg ops).tokens ∧
       ((NewTokenBucket r (B : Int) t0).runCfg ops).tokens ≤
         (((NewTokenBucket r (B : Int) t0).runCfg ops).burst : ℚ)) ∧
    (∀ (r : ℚ) (B : ℕ) (t0 : Int) (ops : List CfgOp), 0 ≤ r →
       cfgMono t0 ops = true → cfgRatesOK ops = true →
       ∃ s, (NewLeakyBucket r (B : Int) t0).runCfg ops = some s ∧
         (s.queue.length : Int) ≤ s.capacity) ∧
    (∀ (r : ℚ) (B : ℕ) (ops : List CfgOp), cfgNoSetBurst ops = true →
       (((NewSlidingWindow r (B : Int)).runCfg ops).timestamps.length : Int) ≤
         ((NewSlidingWindow r (B : Int)).runCfg ops).maxCount) ∧
    (∀ (r : ℚ) (B : ℕ) (t0 : Int) (ops : List CfgOp), cfgNoSetBurst ops = true →
       0 ≤ ((NewFixedWindow r (B : Int) t0).runCfg ops).currentCount ∧
       ((NewFixedWindow r (B : Int) t0).runCfg ops).currentCount ≤
         ((NewFixedWindow r (B : Int) t0).runCfg ops).maxCount) := by
  refine ⟨?_, ?_, ?_, ?_⟩
  · intro r B t0 ops hr hm hra
    refine tbRunCfg_inv ops _ t0 (le_refl t0) hm hra hr
      (Int.natCast_nonneg B) ?_ (le_refl _)
    show (0 : ℚ) ≤ ((B : Int) : ℚ)
    exact_mod_cast Nat.zero_le B
  · intro r B t0 ops hr hm hra
    refine lbRunCfg_inv ops _ t0 (le_refl t0) hm hra hr ?_
    show ((List.length [] : ℕ) : Int) ≤ (B : Int)
    simp
  · intro r B ops hnb
    refine swRunCfg_inv ops _ hnb ?_
    show ((List.length [] : ℕ) : Int) ≤ (B : Int)
    simp
  · intro r B t0 ops hnb
    exact fwRunCfg_inv ops _ hnb (le_refl 0) (Int.natCast_nonneg B)
      (Int.natCast_nonneg B)

/-- Witness for `c4_amended` on concrete traces. -/
theorem c4_amended_witness :
    (0 ≤ ((NewTokenBucket 1 ((1 : ℕ) : Int) 0).runCfg
        [CfgOp.allowN 0 1, CfgOp.tokensAt 5]).tokens ∧
     ((NewTokenBucket 1 ((1 : ℕ) : Int) 0).runCfg
        [CfgOp.allowN 0 1, CfgOp.tokensAt 5]).tokens ≤
       (((NewTokenBucket 1 ((1 : ℕ) : Int) 0).runCfg
          [CfgOp.allowN 0 1, CfgOp.tokensAt 5]).burst : ℚ)) ∧
    (∃ s, (NewLeakyBucket 1 ((1 : ℕ) : Int) 0).runCfg
        [CfgOp.allowN 0 1, CfgOp.tokensAt 5] = some s ∧
      (s.queue.length : Int) ≤ s.capacity) ∧
    ((((NewSlidingWindow 1 ((1 : ℕ) : Int)).runCfg
        [CfgOp.allowN 0 1]).timestamps.length : Int) ≤
      ((NewSlidingWindow 1 ((1 : ℕ) : Int)).runCfg [CfgOp.allowN 0 1]).maxCount) ∧
    (0 ≤ ((NewFixedWindow 1 ((1 : ℕ) : Int) 0).runCfg
        [CfgOp.allowN 0 1]).currentCount ∧
     ((NewFixedWindow 1 ((1 : ℕ) : Int) 0).runCfg
        [CfgOp.allowN 0 1]).currentCount ≤
       ((NewFixedWindow 1 ((1 : ℕ) : Int) 0).runCfg [CfgOp.allowN 0 1]).maxCount) :=
  ⟨c4_amended.1 1 1 0 [CfgOp.allowN 0 1, CfgOp.tokensAt 5]
     (by norm_num) (by decide) (by decide),
   c4_amended.2.1 1 1 0 [CfgOp.allowN 0 1, CfgOp.tokensAt 5]
     (by norm_num) (by decide) (by decide),
   c4_amended.2.2.1 1 1 [CfgOp.allowN 0 1] (by decide),
   c4_amended.2.2.2 1 1 0 [CfgOp.allowN 0 1] (by decide)⟩

end Rateflow
